import Mathlib

/-!
# variant2: job runner (pkg/app/app.go)

A shallow embedding of the job runner in `pkg/app/app.go`: the value bridge
(`ctyToGo`), the parameter/option binder (`createJobContext`), the variables
resolver (`getVarialbles`), the config composer (`getConfigs`), the step
executor (`execJobSteps`), the job body (`execJob`), the assertion engine
(`execAssert`), the loader's job table (`New`) and the job runner (`Run`).

Conventions of the embedding.

* A Go `map[string]T` is an association list `GoMap T`; writing a key replaces
  the entry in place or appends a new one, reading takes the first entry.
* A Go function that returns `(value, error)` returns a pair here when the
  caller can see both, and `Except` when the value is dropped on error.
* `Outcome` adds the two ways a Go call can fail to return: a run-time panic
  and, for the recursive job runner, exhaustion of the recursion budget.
* The collaborators that are not part of the repository (HCL expressions, the
  file system, the YAML decoder, the shell) are observed only through the calls
  the program makes; they appear as fields of `Expression`, `Traversal`, `Body`
  and `World`.
-/

namespace Variant2

/-! ## Go maps -/

/-- A Go `map[string]T`, kept as an association list with unique keys. -/
abbrev GoMap (α : Type) := List (String × α)

/-- Reading `m[k]`: the entry under `k`, if there is one. -/
def GoMap.get {α : Type} : GoMap α → String → Option α
  | [], _ => none
  | (k, v) :: rest, key => if k = key then some v else GoMap.get rest key

/-- Writing `m[k] = v`: replaces the entry under `k`, or adds one. -/
def GoMap.set {α : Type} : GoMap α → String → α → GoMap α
  | [], key, v => [(key, v)]
  | (k, w) :: rest, key, v =>
    if k = key then (k, v) :: rest else (k, w) :: GoMap.set rest key v

/-- The keys of a map, in the order of its entries. -/
def GoMap.keys {α : Type} (m : GoMap α) : List String := m.map Prod.fst

/-! ## The evaluator's types and values (go-cty) -/

/-- A `cty.Type`. `nil` is the zero value `cty.Type{}` (`cty.NilType`), which is
what a Go variable `var tpe cty.Type` holds until it is assigned. -/
inductive CtyType where
  | nil
  | string
  | number
  | bool
  | dynamic
  | list (elem : CtyType)
  | map (elem : CtyType)
  | set (elem : CtyType)
  | tuple (elems : List CtyType)
  | object (attrs : List (String × CtyType))
  deriving Repr, Inhabited

mutual
/-- Equality of types, as `cty.Type.Equals` decides it. Two object types are
equal when they have as many attributes and every attribute of the first is an
attribute of the second, with an equal type: the order in which the attributes
are listed plays no part (the lists stand for Go maps, which hold no name
twice). -/
def CtyType.beq : CtyType → CtyType → Bool
  | .nil, .nil => true
  | .string, .string => true
  | .number, .number => true
  | .bool, .bool => true
  | .dynamic, .dynamic => true
  | .list a, .list b => CtyType.beq a b
  | .map a, .map b => CtyType.beq a b
  | .set a, .set b => CtyType.beq a b
  | .tuple as, .tuple bs => CtyType.beqList as bs
  | .object as, .object bs => decide (as.length = bs.length) && CtyType.beqAttrs as bs
  | _, _ => false
/-- Equality of two lists of types, element by element. -/
def CtyType.beqList : List CtyType → List CtyType → Bool
  | [], [] => true
  | a :: as, b :: bs => CtyType.beq a b && CtyType.beqList as bs
  | _, _ => false
/-- Every attribute of the first list is an attribute of the second, with an
equal type. -/
def CtyType.beqAttrs : List (String × CtyType) → List (String × CtyType) → Bool
  | [], _ => true
  | (k, a) :: as, bs =>
    (match GoMap.get bs k with
      | some b => CtyType.beq a b
      | none => false) && CtyType.beqAttrs as bs
end

/-- A `cty.Value`. Numbers are arbitrary-precision binary floats in go-cty;
each of them is a rational number, which is what the embedding keeps. -/
inductive CtyValue where
  | string (s : String)
  | number (q : ℚ)
  | bool (b : Bool)
  | list (elem : CtyType) (vs : List CtyValue)
  | map (elem : CtyType) (kvs : List (String × CtyValue))
  | set (elem : CtyType) (vs : List CtyValue)
  | tuple (vs : List CtyValue)
  | object (attrs : List (String × CtyValue))
  | null (ty : CtyType)
  | unknown (ty : CtyType)
  deriving Inhabited

mutual
/-- The type of a value (`cty.Value.Type`). -/
def CtyValue.type : CtyValue → CtyType
  | .string _ => .string
  | .number _ => .number
  | .bool _ => .bool
  | .list e _ => .list e
  | .map e _ => .map e
  | .set e _ => .set e
  | .tuple vs => .tuple (CtyValue.typeList vs)
  | .object attrs => .object (CtyValue.typeAttrs attrs)
  | .null ty => ty
  | .unknown ty => ty
/-- The types of the elements of a tuple. -/
def CtyValue.typeList : List CtyValue → List CtyType
  | [] => []
  | v :: vs => CtyValue.type v :: CtyValue.typeList vs
/-- The types of the attributes of an object. -/
def CtyValue.typeAttrs : List (String × CtyValue) → List (String × CtyType)
  | [] => []
  | (k, v) :: rest => (k, CtyValue.type v) :: CtyValue.typeAttrs rest
end

/-- Whether a value is null (`cty.Value.IsNull`). -/
def CtyValue.IsNull : CtyValue → Bool
  | .null _ => true
  | _ => false

/-- Reading an attribute of an object value. -/
def CtyValue.getAttr : CtyValue → String → Option CtyValue
  | .object attrs, name => GoMap.get attrs name
  | _, _ => none

/-- The value `cty.ObjectVal(m)` built from a Go map. -/
def ObjectVal (m : GoMap CtyValue) : CtyValue := .object m

/-! ## YAML documents -/

/-- What `yaml.Unmarshal` decodes a document into (`interface{}`): nil, a
boolean, an integer, a float, a string, a sequence or a mapping with string
keys. -/
inductive Yaml where
  | null
  | bool (b : Bool)
  | int (i : Int)
  | float (q : ℚ)
  | str (s : String)
  | seq (xs : List Yaml)
  | map (kvs : List (String × Yaml))
  deriving Inhabited

/-! ## Results of a Go call -/

/-- How a Go call ends: it returns, it panics, or (for the recursive job
runner only) the recursion budget of the embedding is used up. -/
inductive Outcome (α : Type) where
  | ret (a : α)
  | panic (msg : String)
  | outOfFuel
  deriving Inhabited

/-- The diagnostics of the HCL evaluator (`hcl2.Diagnostics`), one text per
error. An empty list is Go's `nil` diagnostics. -/
abbrev Diagnostics := List String

/-- The errors the program returns. Each constructor stands for one
`fmt.Errorf` format of the source, or for an error handed on from a library. -/
inductive Err where
  /-- `hcl2.Diagnostics` returned as an error. -/
  | diagnostics (ds : Diagnostics)
  /-- An error returned by gocty, yaml, mergo or the operating system. -/
  | library (msg : String)
  /-- `job %q: unexpected type of value %v provided to parameter %q: want %s, got %s` -/
  | parameterDefaultType (job : String) (v : CtyValue) (name : String) (want got : CtyType)
  /-- `job %q: missing value for parameter %q` -/
  | missingParameter (job name : String)
  /-- `job %q: unexpected type of vaule %v provided to option %q: want %s, got %s` -/
  | optionDefaultType (job : String) (v : CtyValue) (name : String) (want got : CtyType)
  /-- `job %q: missing value for option %q` -/
  | missingOption (job name : String)
  /-- `job %q: unexpected type of option. want %q, got %q` -/
  | givenType (job : String) (want got : CtyType)
  /-- `job %q: config %q: source %d: %v` -/
  | configSource (job config : String) (index : Nat) (cause : String)
  /-- `config source %q is not implemented. ...` -/
  | sourceNotImplemented (type : String)
  /-- `format %q is not implemented yet. ...` -/
  | formatNotImplemented (format : String)
  /-- `unexpected type of option. want %q, got %q` (list of string variables) -/
  | stringListType (want got : String)
  /-- `unexpected type of value for variable. want %q, got %q` -/
  | variableType (want got : String)
  /-- `assertion %q failed: this expression must be true, but was false: %s, where %s`;
  `vars` are the entries that `strings.Join(vars, " ")` joins after `where`. -/
  | assertionFailed (name : String) (expr : String) (vars : List String)
  /-- `case %q: %v` -/
  | case (name : String) (cause : Err)
  /-- `handler for type %s not implemneted yet` -/
  | handlerNotImplemented (ty : CtyType)
  /-- The wrapped error of a failed command (`errors.Wrap(err, "command ...")`). -/
  | command (cmd : String) (cause : String)
  deriving Inhabited

/-! ## The surroundings -/

/-- What the program reads of its surroundings: the library functions whose
tables are not spelled out here (conversion between types, quoting, Unicode
normalization), the file system, the YAML decoder and the shell. -/
structure World where
  /-- `convert.Convert` between two different types, neither a pass-through. -/
  convert : CtyValue → CtyType → Except String CtyValue
  /-- `strconv.Quote`, the verb `%q`: the string as a double-quoted Go literal,
  with quotes, backslashes and unprintable characters escaped. -/
  quote : String → String
  /-- The Unicode normal form NFC of a string (`norm.NFC.String`), which
  `cty.StringVal` stores in place of the string it is given. -/
  nfc : String → String
  /-- `filepath.Dir`. -/
  dirname : String → String
  /-- The content of a file, or the error of reading it. The content is a text in
  UTF-8, as the HCL reader requires of a source file. -/
  readFile : String → Except String String
  /-- The bytes `lo` to `hi` of a text as a Go string, when they are not whole
  characters: such a string is not valid UTF-8 and has no counterpart among
  the strings of the embedding. -/
  garbled : String → Nat → Nat → String
  /-- `yaml.Unmarshal` into a `map[string]interface{}`. -/
  yamlUnmarshal : String → Except String (GoMap Yaml)
  /-- `shell.Capture`: stdout, stderr and the error of a command, the error as
  its text and, for an `*exec.ExitError`, the exit code. -/
  capture : String → List String → GoMap String → String × String × Option (String × Option Int)

/-- `cty.StringVal`: the string value of a Go string, stored in normal form. -/
def StringVal (w : World) (s : String) : CtyValue := .string (w.nfc s)

/-! ## Native Go values and the value bridge -/

/-- The native values (`interface{}`) the program passes as arguments: nil,
strings (texts in UTF-8), `int`s, `float64`s (finite ones, as rationals),
booleans and string slices (`none` is the nil slice). `ctyToGo` produces
strings, ints and booleans only. -/
inductive GoValue where
  | nil
  | string (s : String)
  | int (i : Int)
  | float64 (q : ℚ)
  | bool (b : Bool)
  | strings (ss : Option (List String))
  deriving DecidableEq, Inhabited

/-- The least value of Go's `int` (64 bit). -/
def minInt : Int := -(2 ^ 63)

/-- The greatest value of Go's `int` (64 bit). -/
def maxInt : Int := 2 ^ 63 - 1

/-- A native value is well formed when an `int` lies in the range of the
machine type. -/
def GoValue.wf : GoValue → Prop
  | .int i => minInt ≤ i ∧ i ≤ maxInt
  | _ => True

/-- Go's `==` on two `cty.Type` values. A `cty.Type` wraps an interface value:
two types of different kinds are unequal; primitive types compare by kind;
list, map and set types compare their element types; object and tuple types
hold a Go map and a Go slice, so comparing two of them is the run-time panic
`comparing uncomparable type`, which is `none` here. -/
def CtyType.goEq : CtyType → CtyType → Option Bool
  | .nil, .nil => some true
  | .string, .string => some true
  | .number, .number => some true
  | .bool, .bool => some true
  | .dynamic, .dynamic => some true
  | .list a, .list b => CtyType.goEq a b
  | .map a, .map b => CtyType.goEq a b
  | .set a, .set b => CtyType.goEq a b
  | .tuple _, .tuple _ => none
  | .object _, .object _ => none
  | _, _ => some false

/-- The type `gocty.ImpliedType` gives a native value. The call is never made
on a nil interface by this program; `none` stands for that case. -/
def ImpliedType : GoValue → Option CtyType
  | .nil => none
  | .string _ => some .string
  | .int _ => some .number
  | .float64 _ => some .number
  | .bool _ => some .bool
  | .strings _ => some (.list .string)

/-- The conversion `gocty.ToCtyValue(v, ty)` of a native value to a typed value
of the type `ty`. Strings are stored through `cty.StringVal`; a nil slice
becomes the null list. -/
def ToCtyValue (w : World) : GoValue → CtyType → Except String CtyValue
  | .string s, .string => .ok (StringVal w s)
  | .int i, .number => .ok (.number i)
  | .float64 q, .number => .ok (.number q)
  | .bool b, .bool => .ok (.bool b)
  | .strings none, .list .string => .ok (.null (.list .string))
  | .strings (some ss), .list .string => .ok (.list .string (ss.map (StringVal w)))
  | .nil, ty => .ok (.null ty)
  | _, _ => .error "can't convert Go value to the given type"

/-- The conversion `gocty.FromCtyValue(v, &s)` into a Go `string`. -/
def fromCtyString : CtyValue → Except String String
  | .string s => .ok s
  | .null _ => .error "null value is not allowed"
  | .unknown _ => .error "value must be known"
  | _ => .error "string value is required"

/-- The conversion `gocty.FromCtyValue(v, &i)` into a Go `int`: the number has
to be whole and within the range of `int`. -/
def fromCtyInt : CtyValue → Except String Int
  | .number q =>
    if q.den = 1 then
      if minInt ≤ q.num ∧ q.num ≤ maxInt then .ok q.num
      else .error "value must be a whole number, between -9223372036854775808 and 9223372036854775807 inclusive"
    else .error "value must be a whole number"
  | .null _ => .error "null value is not allowed"
  | .unknown _ => .error "value must be known"
  | _ => .error "number value is required"

/-- The conversion `gocty.FromCtyValue(v, &b)` into a Go `bool`. -/
def fromCtyBool : CtyValue → Except String Bool
  | .bool b => .ok b
  | .null _ => .error "null value is not allowed"
  | .unknown _ => .error "value must be known"
  | _ => .error "bool value is required"

/-- The conversion of the elements of a list into Go strings. -/
def fromCtyStringList : List CtyValue → Except String (List String)
  | [] => .ok []
  | v :: vs =>
    match fromCtyString v with
    | .error e => .error e
    | .ok s =>
      match fromCtyStringList vs with
      | .error e => .error e
      | .ok ss => .ok (s :: ss)

/-- The conversion `gocty.FromCtyValue(v, &ss)` into a Go `[]string`; a null
list becomes the nil slice. -/
def fromCtyStrings : CtyValue → Except String (Option (List String))
  | .list _ vs =>
    match fromCtyStringList vs with
    | .error e => .error e
    | .ok ss => .ok (some ss)
  | .null _ => .ok none
  | .unknown _ => .error "value must be known"
  | _ => .error "list value is required"

/-- The conversion `gocty.FromCtyValue(v, &x)` into a `cty.Value`: the value is
passed through as it is. -/
def fromCtyValue (v : CtyValue) : Except String CtyValue := .ok v

/-- `App.ctyToGo`: the value bridge from typed values to native ones. -/
def ctyToGo (v : CtyValue) : Except Err GoValue :=
  match v.type with
  | .string =>
    match fromCtyString v with
    | .error e => .error (.library e)
    | .ok vvv => .ok (.string vvv)
  | .number =>
    match fromCtyInt v with
    | .error e => .error (.library e)
    | .ok vvv => .ok (.int vvv)
  | .bool =>
    match fromCtyBool v with
    | .error e => .error (.library e)
    | .ok vvv => .ok (.bool vvv)
  | ty => .error (.handlerNotImplemented ty)

/-- The name `FriendlyName` gives a type that is not the zero type; `constraint`
selects the wording of `FriendlyNameForConstraint`. -/
def CtyType.friendly (constraint : Bool) : CtyType → String
  | .nil => ""
  | .string => "string"
  | .number => "number"
  | .bool => "bool"
  | .dynamic => if constraint then "any type" else "dynamic"
  | .list e => "list of " ++ CtyType.friendly constraint e
  | .map e => "map of " ++ CtyType.friendly constraint e
  | .set e => "set of " ++ CtyType.friendly constraint e
  | .tuple _ => "tuple"
  | .object _ => "object"

/-- `cty.Type.FriendlyNameForConstraint`. The method calls through the wrapped
interface value, so on the zero type it is a nil dereference. -/
def CtyType.FriendlyNameForConstraint : CtyType → Outcome String
  | .nil => .panic "invalid memory address or nil pointer dereference"
  | t => .ret (CtyType.friendly true t)

/-- `cty.Type.IsListType` together with `ListElementType().Equals(cty.String)`:
the test `getVarialbles` makes for a list of string. -/
def CtyType.isStringList : CtyType → Bool
  | .list .string => true
  | _ => false

/-! ## The HCL collaborator, as the program observes it -/

/-- A source position (`hcl.Pos`). -/
structure Pos where
  Line : Nat
  Column : Nat
  Byte : Nat
  deriving DecidableEq, Repr, Inhabited

/-- A source range (`hcl.Range`). -/
structure HclRange where
  Filename : String
  Start : Pos
  End : Pos
  deriving DecidableEq, Repr, Inhabited

/-- An evaluation context (`hcl2.EvalContext`): its variables. The function
catalog is the same in every context the program builds and is left implicit. -/
structure EvalContext where
  Variables : GoMap CtyValue
  deriving Inhabited

/-- A variable traversal of an expression (`hcl.Traversal`): where it stands in
the source and what it resolves to in a context. -/
structure Traversal where
  SourceRange : HclRange
  TraverseAbs : EvalContext → Except Diagnostics CtyValue

/-- An expression (`hcl2.Expression`), through the four observations the
program makes of one: its range, its value in a context (`nil` contexts
included), its variable traversals, and what `typeexpr.TypeConstraint` reads
it as. -/
structure Expression where
  Range : HclRange
  Value : Option EvalContext → CtyValue × Diagnostics
  Variables : List Traversal
  TypeConstraint : Except Diagnostics CtyType

/-- `convert.Convert(v, want)`: a value that already has the wanted type, and
any value converted to the dynamic pseudo-type, is returned as it is. -/
def Convert (w : World) (v : CtyValue) (want : CtyType) : Except String CtyValue :=
  if CtyType.beq v.type want then .ok v
  else match want with
    | .dynamic => .ok v
    | _ => w.convert v want

/-- `gohcl2.DecodeExpression(expr, ctx, &target)`: evaluate, convert to the
type implied by the target, store. `want` is that implied type and `store` the
final `gocty.FromCtyValue` into the target. Any diagnostic makes the call
fail. -/
def DecodeExpression {α : Type} (w : World) (expr : Expression) (ctx : EvalContext)
    (want : CtyType) (store : CtyValue → Except String α) : Except Err α :=
  match expr.Value (some ctx) with
  | (srcVal, diags) =>
    match Convert w srcVal want with
    | .error e => .error (.diagnostics (diags ++ [e]))
    | .ok v =>
      match store v with
      | .error e => .error (.diagnostics (diags ++ [e]))
      | .ok a =>
        match diags with
        | [] => .ok a
        | _ :: _ => .error (.diagnostics diags)

/-! ## The decoded document -/

/-- The result of a job (`Result`). -/
structure Result where
  Stdout : String := ""
  Stderr : String := ""
  Noop : Bool := false
  ExitStatus : Int := 0
  deriving DecidableEq, Repr, Inhabited

/-- A `run` block (`RunJob`). -/
structure RunJob where
  Name : String
  Args : GoMap Expression

/-- A `step` block (`Step`); `Run` is a pointer in the source. -/
structure Step where
  Name : String
  Run : Option RunJob

/-- An `exec` block (`Exec`). -/
structure Exec where
  Command : Expression
  Args : Expression
  Env : Expression

/-- A `parameter` block (`Parameter`). -/
structure Parameter where
  Name : String
  Type_ : Expression
  Default : Expression

/-- An `option` block (`OptionSpec`). -/
structure OptionSpec where
  Name : String
  Type_ : Expression
  Default : Expression

/-- A `variable` block (`Variable`). -/
structure Variable where
  Name : String
  Type_ : Expression
  Value : Expression

/-- A decoded `source file` body (`SourceFile`). -/
structure SourceFile where
  Path : String
  Default : Option String

/-- A decoded `source job` body (`SourceJob`). -/
structure SourceJob where
  Name : String
  Args : Expression
  Format : Option String

/-- The body of a `source` block (`hcl2.Body`), through the two ways the
program decodes it with `gohcl2.DecodeBody`. -/
structure Body where
  decodeSourceFile : EvalContext → Except Diagnostics SourceFile
  decodeSourceJob : EvalContext → Except Diagnostics SourceJob

/-- A `source` block (`Source`). -/
structure Source where
  Type_ : String
  Body : Body

/-- A `config` block (`Config`). -/
structure Config where
  Name : String
  Sources : List Source

/-- An `assert` block (`Assert`). -/
structure Assert where
  Name : String
  Condition : Expression

/-- A `job` block, or the root of the document (`JobSpec`). The fields the
functions below never read (version, description, concurrency, fail) are left
out. -/
structure JobSpec where
  Name : String
  Parameters : List Parameter
  Options : List OptionSpec
  Configs : List Config
  Variables : List Variable
  SourceLocator : Expression
  Exec : Option Exec
  Assert : List Assert
  Run : Option RunJob
  Steps : List Step

/-- A `case` block of a test (`Case`). -/
structure Case where
  Name : String
  Args : GoMap Expression

/-- A `test` block (`Test`). -/
structure Test where
  Name : String
  Variables : List Variable
  Cases : List Case
  Run : RunJob
  Assert : List Assert
  SourceLocator : Expression

/-- The decoded document (`HCL2Config`): the jobs, the tests and the root job. -/
structure HCL2Config where
  Jobs : List JobSpec
  Tests : List Test
  JobSpec : JobSpec

/-- The application (`App`): the decoded document and the job table. Both are
nil in the `App` that `New` returns together with an error. -/
structure App where
  Config : Option HCL2Config
  jobByName : Option (GoMap JobSpec)

/-! ## Variables resolver -/

/-- `getContext`: the `context` object, with the directory of the file the job
stands in. -/
def getContext (w : World) (sourceLocator : Expression) : CtyValue :=
  ObjectVal [("sourcedir", StringVal w (w.dirname sourceLocator.Range.Filename))]

/-- One round of the loop of `getVarialbles`: the fields after the variable is
bound, or the error the function returns with. -/
def bindVariable (w : World) (varCtx : EvalContext) (varSpec : Variable)
    (varFields : GoMap CtyValue) : Outcome (Except Err (GoMap CtyValue)) :=
  let tpe : Except Diagnostics CtyType :=
    if !(varSpec.Type_.Value none).1.IsNull then varSpec.Type_.TypeConstraint else .ok .nil
  match tpe with
  | .error diags => .ret (.error (.diagnostics diags))
  | .ok tpe =>
    if tpe.isStringList then
      match DecodeExpression w varSpec.Value varCtx (.list .string) fromCtyStrings with
      | .error err => .ret (.error err)
      | .ok v =>
        match ImpliedType (.strings v) with
        | none => .panic "nil type"
        | some vty =>
          match CtyType.goEq vty tpe with
          | none => .panic "comparing uncomparable type"
          | some false =>
            match tpe.FriendlyNameForConstraint with
            | .ret want => .ret (.error (.stringListType want (vty.friendly false)))
            | .panic msg => .panic msg
            | .outOfFuel => .outOfFuel
          | some true =>
            match ToCtyValue w (.strings v) tpe with
            | .error e => .ret (.error (.library e))
            | .ok val => .ret (.ok (GoMap.set varFields varSpec.Name val))
    else
      match DecodeExpression w varSpec.Value varCtx .dynamic fromCtyValue with
      | .error err => .ret (.error err)
      | .ok v =>
        let vty := v.type
        if !CtyType.beq vty tpe then
          match tpe.FriendlyNameForConstraint with
          | .ret want => .ret (.error (.variableType want (vty.friendly false)))
          | .panic msg => .panic msg
          | .outOfFuel => .outOfFuel
        else .ret (.ok (GoMap.set varFields varSpec.Name v))

/-- The loop of `getVarialbles` over the variable specs, from the fields bound
so far. The function returns the object of the fields bound before the
failure, together with the error. -/
def getVarialblesFrom (w : World) (varCtx : EvalContext) :
    List Variable → GoMap CtyValue → Outcome (CtyValue × Option Err)
  | [], varFields => .ret (ObjectVal varFields, none)
  | varSpec :: rest, varFields =>
    match bindVariable w varCtx varSpec varFields with
    | .ret (.ok varFields2) => getVarialblesFrom w varCtx rest varFields2
    | .ret (.error err) => .ret (ObjectVal varFields, some err)
    | .panic msg => .panic msg
    | .outOfFuel => .outOfFuel

/-- `getVarialbles`: evaluates the variables in declaration order. -/
def getVarialbles (w : World) (varCtx : EvalContext) (varSpecs : List Variable) :
    Outcome (CtyValue × Option Err) :=
  getVarialblesFrom w varCtx varSpecs []

/-! ## Parameter and option binder -/

/-- What the two loops of `createJobContext` do with one spec, given the value
`v` the caller's map holds under its name: the typed value to bind, or the
error. `typeErr` and `missing` build the two errors that name the kind of
spec. -/
def bindSpec (w : World) (jobName : String) (ctx : CtyValue)
    (typeExpr defaultExpr : Expression) (v : GoValue)
    (typeErr : CtyValue → CtyType → CtyType → Err) (missing : Err) :
    Outcome (Except Err CtyValue) :=
  match typeExpr.TypeConstraint with
  | .error diags => .ret (.error (.diagnostics diags))
  | .ok tpe =>
    match v with
    | .nil =>
      let r := defaultExpr.Range
      if r.Start ≠ r.End then
        let defCtx : EvalContext := { Variables := [("context", ctx)] }
        match DecodeExpression w defaultExpr defCtx .dynamic fromCtyValue with
        | .error err => .ret (.error err)
        | .ok vv =>
          match CtyType.goEq vv.type tpe with
          | none => .panic "comparing uncomparable type"
          | some false => .ret (.error (typeErr vv tpe vv.type))
          | some true => .ret (.ok vv)
      else .ret (.error missing)
    | v =>
      match ImpliedType v with
      | none => .panic "nil type"
      | some vty =>
        match CtyType.goEq vty tpe with
        | none => .panic "comparing uncomparable type"
        | some false => .ret (.error (.givenType jobName tpe vty))
        | some true =>
          match ToCtyValue w v tpe with
          | .error e => .ret (.error (.library e))
          | .ok val => .ret (.ok val)

/-- The value a Go map of native values holds under a name; nil when it holds
none. -/
def given (m : GoMap GoValue) (name : String) : GoValue :=
  match GoMap.get m name with
  | some v => v
  | none => .nil

/-- The first loop of `createJobContext`, over the parameter specs. -/
def bindParameters (w : World) (jobName : String) (ctx : CtyValue)
    (givenParams : GoMap GoValue) :
    List Parameter → GoMap CtyValue → Outcome (Except Err (GoMap CtyValue))
  | [], params => .ret (.ok params)
  | p :: rest, params =>
    match bindSpec w jobName ctx p.Type_ p.Default (given givenParams p.Name)
        (fun vv want got => .parameterDefaultType jobName vv p.Name want got)
        (.missingParameter jobName p.Name) with
    | .ret (.ok val) =>
      bindParameters w jobName ctx givenParams rest (GoMap.set params p.Name val)
    | .ret (.error err) => .ret (.error err)
    | .panic msg => .panic msg
    | .outOfFuel => .outOfFuel

/-- The second loop of `createJobContext`, over the option specs. -/
def bindOptions (w : World) (jobName : String) (ctx : CtyValue)
    (givenOpts : GoMap GoValue) :
    List OptionSpec → GoMap CtyValue → Outcome (Except Err (GoMap CtyValue))
  | [], opts => .ret (.ok opts)
  | op :: rest, opts =>
    match bindSpec w jobName ctx op.Type_ op.Default (given givenOpts op.Name)
        (fun vv want got => .optionDefaultType jobName vv op.Name want got)
        (.missingOption jobName op.Name) with
    | .ret (.ok val) =>
      bindOptions w jobName ctx givenOpts rest (GoMap.set opts op.Name val)
    | .ret (.error err) => .ret (.error err)
    | .panic msg => .panic msg
    | .outOfFuel => .outOfFuel

/-- `createJobContext`: binds the parameters, then the options, then resolves
the variables; the root specs come before the specs of the job. -/
def createJobContext (w : World) (cc : HCL2Config) (j : JobSpec)
    (givenParams givenOpts : GoMap GoValue) : Outcome (Except Err EvalContext) :=
  let ctx := getContext w j.SourceLocator
  match bindParameters w j.Name ctx givenParams (cc.JobSpec.Parameters ++ j.Parameters) [] with
  | .panic msg => .panic msg
  | .outOfFuel => .outOfFuel
  | .ret (.error err) => .ret (.error err)
  | .ret (.ok params) =>
    match bindOptions w j.Name ctx givenOpts (cc.JobSpec.Options ++ j.Options) [] with
    | .panic msg => .panic msg
    | .outOfFuel => .outOfFuel
    | .ret (.error err) => .ret (.error err)
    | .ret (.ok opts) =>
      let varCtx : EvalContext :=
        { Variables := [("param", ObjectVal params), ("opt", ObjectVal opts), ("context", ctx)] }
      match getVarialbles w varCtx (cc.JobSpec.Variables ++ j.Variables) with
      | .panic msg => .panic msg
      | .outOfFuel => .outOfFuel
      | .ret (_, some err) => .ret (.error err)
      | .ret (vars, none) =>
        .ret (.ok { Variables := [("param", ObjectVal params), ("opt", ObjectVal opts),
                                  ("var", vars), ("context", ctx)] })

/-! ## Config composer -/

mutual
/-- Modelled from the spec: `mergo.Merge` with `mergo.WithOverride`, a library
that is not part of the repository. Section 4.5: scalars and leaves at the
same path are replaced, maps are merged recursively, sequences are replaced
wholesale. This is the merge of a source value into the value the destination
holds under the same key. -/
def Merge.value : Option Yaml → Yaml → Yaml
  | some (.map d), .map s => .map (Merge.entries d s)
  | _, v => v
/-- Modelled from the spec: the merge of the entries of a source mapping into a
destination mapping, one key after the other (see `Merge.value`). -/
def Merge.entries : GoMap Yaml → List (String × Yaml) → GoMap Yaml
  | dst, [] => dst
  | dst, (k, v) :: rest =>
    Merge.entries (GoMap.set dst k (Merge.value (GoMap.get dst k) v)) rest
end

/-- Modelled from the spec: `mergo.Merge(&merged, m, mergo.WithOverride)`, the
merge with override semantics of section 4.5. -/
def Merge (merged m : GoMap Yaml) : GoMap Yaml := Merge.entries merged m

mutual
/-- Modelled from the spec: the typed value of a YAML document, which the
source obtains from libraries that are not part of the repository
(`yaml.Marshal` of the merged mapping, then `ctyyaml.ImpliedType` and
`ctyyaml.Unmarshal`). Section 4.5: the merged mapping is re-serialized and
re-parsed through the typed-value YAML bridge. Mappings become objects,
sequences tuples, scalars the primitive value of their kind, null the null of
the dynamic pseudo-type. -/
def yamlToCty : Yaml → CtyValue
  | .null => .null .dynamic
  | .bool b => .bool b
  | .int i => .number i
  | .float q => .number q
  | .str s => .string s
  | .seq xs => .tuple (yamlToCtyList xs)
  | .map kvs => .object (yamlToCtyAttrs kvs)
/-- The typed values of the elements of a sequence. -/
def yamlToCtyList : List Yaml → List CtyValue
  | [] => []
  | x :: xs => yamlToCty x :: yamlToCtyList xs
/-- The typed values of the entries of a mapping. -/
def yamlToCtyAttrs : List (String × Yaml) → List (String × CtyValue)
  | [] => []
  | (k, v) :: rest => (k, yamlToCty v) :: yamlToCtyAttrs rest
end

/-- The job runner as the functions below call it (`app.Run`): command, args,
opts to a result and an error, either of which may be nil. -/
abbrev Runner := String → GoMap GoValue → GoMap GoValue → Outcome (Option Result × Option Err)

/-- The conversion `gocty.FromCtyValue` into a `map[string]cty.Value`; a null
map becomes the nil map. -/
def fromCtyValueMap : CtyValue → Except String (GoMap CtyValue)
  | .map _ kvs => .ok kvs
  | .null _ => .ok []
  | .unknown _ => .error "value must be known"
  | _ => .error "map value is required"

/-- The loop that turns typed arguments into native ones with `ctyToGo`. -/
def argsToGo : GoMap CtyValue → GoMap GoValue → Except Err (GoMap GoValue)
  | [], args => .ok args
  | (k, v) :: rest, args =>
    match ctyToGo v with
    | .error err => .error err
    | .ok vv => argsToGo rest (GoMap.set args k vv)

/-- The first half of the inner loop of `getConfigs`: the YAML mapping decoded
from one source of a config block, a file or the stdout of a job. -/
def loadSource (w : World) (run : Runner) (confCtx : EvalContext) (j : JobSpec)
    (confSpec : Config) (sourceIdx : Nat) (sourceSpec : Source) :
    Outcome (Except Err (GoMap Yaml)) :=
  let decode (yamlData format : String) : Outcome (Except Err (GoMap Yaml)) :=
    if format = "yaml" then
      match w.yamlUnmarshal yamlData with
      | .error e => .ret (.error (.library e))
      | .ok m => .ret (.ok m)
    else .ret (.error (.formatNotImplemented format))
  if sourceSpec.Type_ = "file" then
    match sourceSpec.Body.decodeSourceFile confCtx with
    | .error diags => .ret (.error (.diagnostics diags))
    | .ok source =>
      match w.readFile source.Path with
      | .ok yamlData => decode yamlData "yaml"
      | .error e =>
        match source.Default with
        | none => .ret (.error (.configSource j.Name confSpec.Name sourceIdx e))
        | some d => decode d "yaml"
  else if sourceSpec.Type_ = "job" then
    match sourceSpec.Body.decodeSourceJob confCtx with
    | .error diags => .ret (.error (.diagnostics diags))
    | .ok source =>
      match DecodeExpression w source.Args confCtx (.map .dynamic) fromCtyValueMap with
      | .error err => .ret (.error err)
      | .ok ctyArgs =>
        match argsToGo ctyArgs [] with
        | .error err => .ret (.error err)
        | .ok args =>
          match run source.Name args args with
          | .panic msg => .panic msg
          | .outOfFuel => .outOfFuel
          | .ret (_, some err) => .ret (.error err)
          | .ret (none, none) => .panic "invalid memory address or nil pointer dereference"
          | .ret (some res, none) =>
            match source.Format with
            | some format => decode res.Stdout format
            | none => decode res.Stdout "yaml"
  else .ret (.error (.sourceNotImplemented sourceSpec.Type_))

/-- The inner loop of `getConfigs`: the sources of one config block are loaded
in order and merged into `merged`. -/
def mergeSources (w : World) (run : Runner) (confCtx : EvalContext) (j : JobSpec)
    (confSpec : Config) : Nat → List Source → GoMap Yaml → Outcome (Except Err (GoMap Yaml))
  | _, [], merged => .ret (.ok merged)
  | sourceIdx, sourceSpec :: rest, merged =>
    match loadSource w run confCtx j confSpec sourceIdx sourceSpec with
    | .panic msg => .panic msg
    | .outOfFuel => .outOfFuel
    | .ret (.error err) => .ret (.error err)
    | .ret (.ok m) => mergeSources w run confCtx j confSpec (sourceIdx + 1) rest (Merge merged m)

/-- The body of the outer loop of `getConfigs`: the typed value of one config
block. -/
def composeConfig (w : World) (run : Runner) (confCtx : EvalContext) (j : JobSpec)
    (confSpec : Config) : Outcome (Except Err CtyValue) :=
  match mergeSources w run confCtx j confSpec 0 confSpec.Sources [] with
  | .panic msg => .panic msg
  | .outOfFuel => .outOfFuel
  | .ret (.error err) => .ret (.error err)
  | .ret (.ok merged) => .ret (.ok (yamlToCty (.map merged)))

/-- The outer loop of `getConfigs`, from the fields composed so far. -/
def getConfigsFrom (w : World) (run : Runner) (confCtx : EvalContext) (j : JobSpec) :
    List Config → GoMap CtyValue → Outcome (Except Err CtyValue)
  | [], confFields => .ret (.ok (ObjectVal confFields))
  | confSpec :: rest, confFields =>
    match composeConfig w run confCtx j confSpec with
    | .panic msg => .panic msg
    | .outOfFuel => .outOfFuel
    | .ret (.error err) => .ret (.error err)
    | .ret (.ok v) => getConfigsFrom w run confCtx j rest (GoMap.set confFields confSpec.Name v)

/-- `App.getConfigs`: the `conf` object of a job, one field per config block;
the root blocks come before the blocks of the job. -/
def getConfigs (w : World) (run : Runner) (confCtx : EvalContext) (cc : HCL2Config)
    (j : JobSpec) : Outcome (Except Err CtyValue) :=
  getConfigsFrom w run confCtx j (cc.JobSpec.Configs ++ j.Configs) []

/-! ## Messages -/

/-- The verb `%v` of a native value. The program prints only what `ctyToGo`
returns: strings, ints and booleans. -/
def GoValue.fmtV : GoValue → String
  | .nil => "<nil>"
  | .string s => s
  | .int i => toString i
  | .float64 q => toString q.num ++ "/" ++ toString q.den
  | .bool b => if b then "true" else "false"
  | .strings none => "[]"
  | .strings (some ss) => "[" ++ " ".intercalate ss ++ "]"

/-- The verb `%T` of a native value. -/
def GoValue.fmtT : GoValue → String
  | .nil => "<nil>"
  | .string _ => "string"
  | .int _ => "int"
  | .float64 _ => "float64"
  | .bool _ => "bool"
  | .strings _ => "[]string"

/-- The text of an error (`err.Error()`); `w.quote` is the verb `%q`. Typed
values printed with `%v` are
shown by the name of their type. -/
def Err.Error (w : World) : Err → String
  | .diagnostics ds => "; ".intercalate ds
  | .library msg => msg
  | .parameterDefaultType job v name want got =>
    "job " ++ w.quote job ++ ": unexpected type of value " ++ CtyType.friendly false v.type
      ++ " provided to parameter " ++ w.quote name ++ ": want " ++ CtyType.friendly false want
      ++ ", got " ++ CtyType.friendly false got
  | .missingParameter job name =>
    "job " ++ w.quote job ++ ": missing value for parameter " ++ w.quote name
  | .optionDefaultType job v name want got =>
    "job " ++ w.quote job ++ ": unexpected type of vaule " ++ CtyType.friendly false v.type
      ++ " provided to option " ++ w.quote name ++ ": want " ++ CtyType.friendly false want
      ++ ", got " ++ CtyType.friendly false got
  | .missingOption job name =>
    "job " ++ w.quote job ++ ": missing value for option " ++ w.quote name
  | .givenType job want got =>
    "job " ++ w.quote job ++ ": unexpected type of option. want "
      ++ w.quote (CtyType.friendly true want) ++ ", got " ++ w.quote (CtyType.friendly false got)
  | .configSource job config index cause =>
    "job " ++ w.quote job ++ ": config " ++ w.quote config ++ ": source " ++ toString index
      ++ ": " ++ cause
  | .sourceNotImplemented type =>
    "config source " ++ w.quote type ++ " is not implemented. It must be either \"file\" or "
      ++ "\"job\", so that it looks like " ++ "`source file \x7b` or `source file \x7b`"
  | .formatNotImplemented format =>
    "format " ++ w.quote format ++ " is not implemented yet. It must be \"yaml\" or omitted"
  | .stringListType want got =>
    "unexpected type of option. want " ++ w.quote want ++ ", got " ++ w.quote got
  | .variableType want got =>
    "unexpected type of value for variable. want " ++ w.quote want ++ ", got " ++ w.quote got
  | .assertionFailed name expr vars =>
    "assertion " ++ w.quote name ++ " failed: this expression must be true, but was false: "
      ++ expr ++ ", where " ++ " ".intercalate vars
  | .case name cause => "case " ++ w.quote name ++ ": " ++ Err.Error w cause
  | .handlerNotImplemented ty =>
    "handler for type " ++ CtyType.friendly false ty ++ " not implemneted yet"
  | .command cmd cause => cmd ++ ": " ++ cause

/-! ## Commands, nested runs and steps -/

/-- `Result.toCty`: a result as an object; a nil result is the object with
`set = false`. -/
def Result.toCty (w : World) : Option Result → CtyValue
  | none =>
    ObjectVal [("stdout", StringVal w "<not set>"), ("stderr", StringVal w "<not set>>"),
      ("exitstatus", .number (-127)), ("set", .bool false)]
  | some res =>
    ObjectVal [("stdout", StringVal w res.Stdout), ("stderr", StringVal w res.Stderr),
      ("exitstatus", .number res.ExitStatus), ("set", .bool true)]

/-- `App.execCmd`: runs a command through the shell and wraps its outcome. The
trace of commands and the line logging are outputs only and are left out. -/
def execCmd (w : World) (cmd : String) (args : List String) (env : GoMap String) :
    Option Result × Option Err :=
  match w.capture cmd args env with
  | (stdout, stderr, none) => (some { Stdout := stdout, Stderr := stderr }, none)
  | (stdout, stderr, some (msg, code)) =>
    let re : Result :=
      match code with
      | some c => { Stdout := stdout, Stderr := stderr, ExitStatus := c }
      | none => { Stdout := stdout, Stderr := stderr }
    (some re, some (.command ("command \"" ++ cmd ++ " " ++ " ".intercalate args ++ "\"") msg))

/-- The loop of `execRun` over the argument expressions of a `run` block. -/
def runArgs (w : World) (jobCtx : EvalContext) :
    GoMap Expression → GoMap GoValue → Except Err (GoMap GoValue)
  | [], args => .ok args
  | (k, expr) :: rest, args =>
    match DecodeExpression w expr jobCtx .dynamic fromCtyValue with
    | .error diags => .error diags
    | .ok v =>
      match ctyToGo v with
      | .error err => .error err
      | .ok vv => runArgs w jobCtx rest (GoMap.set args k vv)

/-- `App.execRun`: evaluates the arguments in `jobCtx`, runs the named job,
and publishes the outcome as `run` in `jobCtx`. The context is returned with
the result, since the source mutates it in place. -/
def execRun (w : World) (run : Runner) (jobCtx : EvalContext) (r : Option RunJob) :
    Outcome (EvalContext × Option Result × Option Err) :=
  match r with
  | none => .panic "invalid memory address or nil pointer dereference"
  | some r =>
    match runArgs w jobCtx r.Args [] with
    | .error err => .ret (jobCtx, none, some err)
    | .ok args =>
      match run r.Name args args with
      | .panic msg => .panic msg
      | .outOfFuel => .outOfFuel
      | .ret (res, err) =>
        let errText : String :=
          match err with
          | some e => e.Error w
          | none => ""
        let runVal := ObjectVal [("res", Result.toCty w res), ("err", StringVal w errText)]
        .ret ({ Variables := GoMap.set jobCtx.Variables "run" runVal }, res, err)

/-- The loop of `App.execJobSteps`, from the context, the step results and the
last result so far. Each step is run in the context as it stands, then its
result is stored under its name in `stepResults` and the object of all results
so far is published as `step`. The first error ends the loop. -/
def execJobStepsFrom (w : World) (run : Runner) :
    EvalContext → GoMap CtyValue → List Step → Option Result →
      Outcome (EvalContext × Option Result × Option Err)
  | stepCtx, _, [], lastRes => .ret (stepCtx, lastRes, none)
  | stepCtx, stepResults, s :: rest, _ =>
    match execRun w run stepCtx s.Run with
    | .panic msg => .panic msg
    | .outOfFuel => .outOfFuel
    | .ret (ctx2, lastRes, some err) => .ret (ctx2, lastRes, some err)
    | .ret (ctx2, lastRes, none) =>
      let stepResults2 := GoMap.set stepResults s.Name (Result.toCty w lastRes)
      let ctx3 : EvalContext :=
        { Variables := GoMap.set ctx2.Variables "step" (ObjectVal stepResults2) }
      execJobStepsFrom w run ctx3 stepResults2 rest lastRes

/-- `App.execJobSteps`: runs the steps of a job in declaration order. -/
def execJobSteps (w : World) (run : Runner) (jobCtx : EvalContext)
    (stepResults : GoMap CtyValue) (steps : List Step) :
    Outcome (EvalContext × Option Result × Option Err) :=
  execJobStepsFrom w run jobCtx stepResults steps none

/-! ## Assertion engine -/

/-- The characters of a text that follow the first `n` bytes of its UTF-8
encoding; none when the offset `n` falls inside a character or behind the
text. -/
def dropBytes : List Char → Nat → Option (List Char)
  | cs, 0 => some cs
  | [], _ + 1 => none
  | c :: cs, n + 1 =>
    if c.utf8Size ≤ n + 1 then dropBytes cs (n + 1 - c.utf8Size) else none

/-- The characters that make up the first `n` bytes of the UTF-8 encoding of a
text; none when the offset `n` falls inside a character or behind the text. -/
def takeBytes : List Char → Nat → Option (List Char)
  | _, 0 => some []
  | [], _ + 1 => none
  | c :: cs, n + 1 =>
    if c.utf8Size ≤ n + 1 then
      match takeBytes cs (n + 1 - c.utf8Size) with
      | some rest => some (c :: rest)
      | none => none
    else none

/-- The slice expression `string(b[lo:hi])` on the bytes of a file, by byte
offsets into its UTF-8 encoding. Out of the bounds of the content the
embedding gives no slice (Go panics beyond the capacity of the buffer). Bytes
that are not whole characters are the string `w.garbled` stands for. -/
def sliceBytes (w : World) (b : String) (lo hi : Nat) : Option String :=
  if lo ≤ hi ∧ hi ≤ b.utf8ByteSize then
    match dropBytes b.data lo with
    | none => some (w.garbled b lo hi)
    | some rest =>
      match takeBytes rest (hi - lo) with
      | none => some (w.garbled b lo hi)
      | some cs => some (String.mk cs)
  else none

/-- `unicode.IsSpace`: the white space of Unicode, by code point. -/
def isSpace (c : Char) : Bool :=
  let n := c.toNat
  (9 ≤ n && n ≤ 13) || n = 32 || n = 133 || n = 160 || n = 5760 || (8192 ≤ n && n ≤ 8202)
    || n = 8232 || n = 8233 || n = 8239 || n = 8287 || n = 12288

/-- `strings.TrimSpace`: the string without its leading and trailing white
space. -/
def TrimSpace (s : String) : String :=
  String.mk ((s.data.dropWhile isSpace).reverse.dropWhile isSpace).reverse

/-- The entry of the binding list for a traversal with source text `src` that
resolved to the native value `v`: `fmt.Sprintf("%s=%v (%T)", src, v, v)`. -/
def binding (src : String) (v : GoValue) : String :=
  src ++ "=" ++ v.fmtV ++ " (" ++ v.fmtT ++ ")"

/-- The loop of `execAssert` over the traversals of a failed condition: a
traversal that resolves adds one entry, one that does not is skipped, and a
resolved value `ctyToGo` cannot convert is a panic. -/
def assertVars (w : World) (ctx : EvalContext) (b : String) :
    List Traversal → List String → Outcome (List String)
  | [], vars => .ret vars
  | t :: rest, vars =>
    match t.TraverseAbs ctx with
    | .error _ => assertVars w ctx b rest vars
    | .ok ctyValue =>
      match ctyToGo ctyValue with
      | .error err => .panic (err.Error w)
      | .ok v =>
        match sliceBytes w b t.SourceRange.Start.Byte t.SourceRange.End.Byte with
        | none => .panic "slice bounds out of range"
        | some raw => assertVars w ctx b rest (vars ++ [binding (TrimSpace raw) v])

/-- `App.execAssert`: nil when the condition holds, the diagnostics when it
cannot be evaluated as a boolean, and the assertion failure with the text of
the condition and the binding list when it is false. -/
def execAssert (w : World) (ctx : EvalContext) (a : Assert) : Outcome (Option Err) :=
  let cond := a.Condition
  match DecodeExpression w cond ctx .bool fromCtyBool with
  | .error diags => .ret (some diags)
  | .ok true => .ret none
  | .ok false =>
    match w.readFile cond.Range.Filename with
    | .error e => .panic e
    | .ok b =>
      match sliceBytes w b cond.Range.Start.Byte (cond.Range.End.Byte + 1) with
      | none => .panic "slice bounds out of range"
      | some expr =>
        match assertVars w ctx b cond.Variables [] with
        | .panic msg => .panic msg
        | .outOfFuel => .outOfFuel
        | .ret vars => .ret (some (.assertionFailed a.Name expr vars))

/-- A loop `for _, a := range asserts` that returns with the first error of
`execAssert`. -/
def execAsserts (w : World) (ctx : EvalContext) : List Assert → Outcome (Option Err)
  | [] => .ret none
  | a :: rest =>
    match execAssert w ctx a with
    | .panic msg => .panic msg
    | .outOfFuel => .outOfFuel
    | .ret (some err2) => .ret (some err2)
    | .ret none => execAsserts w ctx rest

/-! ## Job body and job runner -/

/-- The conversion of the entries of a map into Go strings. -/
def fromCtyStringEntries : List (String × CtyValue) → Except String (GoMap String)
  | [] => .ok []
  | (k, v) :: rest =>
    match fromCtyString v with
    | .error e => .error e
    | .ok s =>
      match fromCtyStringEntries rest with
      | .error e => .error e
      | .ok m => .ok ((k, s) :: m)

/-- The conversion `gocty.FromCtyValue` into a `map[string]string`; a null map
becomes the nil map. -/
def fromCtyStringMap : CtyValue → Except String (GoMap String)
  | .map _ kvs => fromCtyStringEntries kvs
  | .null _ => .ok []
  | .unknown _ => .error "value must be known"
  | _ => .error "map value is required"

/-- The end of `execJob`, after the body gave `res` and `err`: the assertions
of the job, when it has some, and the empty result in place of a nil one. -/
def afterBody (w : World) (j : JobSpec) (ctx : EvalContext) (res : Option Result)
    (err : Option Err) : Outcome (Option Result × Option Err) :=
  match execAsserts w ctx j.Assert with
  | .panic msg => .panic msg
  | .outOfFuel => .outOfFuel
  | .ret (some err2) => .ret (none, some err2)
  | .ret none =>
    match res, err with
    | none, none => .ret (some {}, none)
    | res, err => .ret (res, err)

/-- `App.execJob`: the body of a job, which is its `exec` block, else its `run`
block, else its assertions; after an `exec` or a `run` the assertions of the
job are evaluated as well. -/
def execJob (w : World) (run : Runner) (j : JobSpec) (ctx : EvalContext) :
    Outcome (Option Result × Option Err) :=
  match j.Exec with
  | some e =>
    match DecodeExpression w e.Command ctx .string fromCtyString with
    | .error diags => .ret (none, some diags)
    | .ok cmd =>
      match DecodeExpression w e.Args ctx (.list .string) fromCtyStrings with
      | .error diags => .ret (none, some diags)
      | .ok args =>
        match DecodeExpression w e.Env ctx (.map .string) fromCtyStringMap with
        | .error diags => .ret (none, some diags)
        | .ok env =>
          match execCmd w cmd (args.getD []) env with
          | (res, err) => afterBody w j ctx res err
  | none =>
    match j.Run with
    | some r =>
      match execRun w run ctx (some r) with
      | .panic msg => .panic msg
      | .outOfFuel => .outOfFuel
      | .ret (ctx2, res, err) => afterBody w j ctx2 res err
    | none =>
      match j.Assert with
      | [] => afterBody w j ctx none none
      | _ :: _ =>
        match execAsserts w ctx j.Assert with
        | .panic msg => .panic msg
        | .outOfFuel => .outOfFuel
        | .ret (some err2) => .ret (none, some err2)
        | .ret none => .ret (some {}, none)

/-- The body of `App.Run`, with the nested calls of `app.Run` (from config
sources, steps and `run` blocks) made through `run`. -/
def RunWith (w : World) (app : App) (run : Runner) (cmd : String)
    (args opts : GoMap GoValue) : Outcome (Option Result × Option Err) :=
  let jobByName : GoMap JobSpec :=
    match app.jobByName with
    | some m => m
    | none => []
  let found : Option JobSpec :=
    match GoMap.get jobByName cmd with
    | some j => some j
    | none => GoMap.get jobByName ""
  match found with
  | none => .panic ("command " ++ w.quote cmd ++ " not found")
  | some j =>
    match app.Config with
    | none => .panic "invalid memory address or nil pointer dereference"
    | some cc =>
      match createJobContext w cc j args opts with
      | .panic msg => .panic msg
      | .outOfFuel => .outOfFuel
      | .ret (.error err) => .ret (none, some err)
      | .ret (.ok jobCtx) =>
        match getConfigs w run jobCtx cc j with
        | .panic msg => .panic msg
        | .outOfFuel => .outOfFuel
        | .ret (.error err) => .ret (none, some err)
        | .ret (.ok conf) =>
          let jobCtx2 : EvalContext := { Variables := GoMap.set jobCtx.Variables "conf" conf }
          match execJobSteps w run jobCtx2 [] j.Steps with
          | .panic msg => .panic msg
          | .outOfFuel => .outOfFuel
          | .ret (ctx3, res, err) =>
            if res.isSome || err.isSome then .ret (res, err)
            else execJob w run j ctx3

/-- `App.Run`: the job runner. Jobs call jobs without bound, so the embedding
counts the depth of nested calls: `Run w app fuel` runs a job whose nested
calls go at most `fuel` deep. -/
def Run (w : World) (app : App) : Nat → Runner
  | 0 => fun _ _ _ => .outOfFuel
  | fuel + 1 => fun cmd args opts => RunWith w app (Run w app fuel) cmd args opts

/-! ## Loader -/

/-- What `New` reads of the directory it loads: the files found under it, the
diagnostics of parsing each, and the decoding of the merged bodies. -/
structure Loader where
  /-- `conf.FindHCLFiles`. -/
  FindHCLFiles : String → Except String (List String)
  /-- The diagnostics of parsing one file (`ParseHCLFile`, `ParseJSONFile`). -/
  parse : String → Diagnostics
  /-- `gohcl2.DecodeBody` of the merged files into the document. -/
  decode : List String → HCL2Config × Diagnostics

/-- The job table `New` builds: every job under its name, in document order,
then the root job under the empty name. -/
def jobTable (cc : HCL2Config) : GoMap JobSpec :=
  GoMap.set (cc.Jobs.foldl (fun jobByName j => GoMap.set jobByName j.Name j) []) "" cc.JobSpec

/-- `New`: loads the directory and builds the application. On an error of
parsing or decoding, the application is returned without document and job
table, together with the error. -/
def New (l : Loader) (dir : String) : Option App × Option Err :=
  match l.FindHCLFiles dir with
  | .error e => (none, some (.library ("failed to get .hcl files: " ++ e)))
  | .ok files =>
    match (files.map l.parse).flatten with
    | d :: ds => (some { Config := none, jobByName := none }, some (.diagnostics (d :: ds)))
    | [] =>
      match l.decode files with
      | (_, d :: ds) => (some { Config := none, jobByName := none }, some (.diagnostics (d :: ds)))
      | (cc, []) => (some { Config := some cc, jobByName := some (jobTable cc) }, none)

/-! ## Test harness -/

/-- Whether a list of characters starts with another. -/
def startsWith : List Char → List Char → Bool
  | _, [] => true
  | [], _ :: _ => false
  | c :: cs, p :: ps => c == p && startsWith cs ps

/-- `strings.HasPrefix`. -/
def HasPrefix (s start : String) : Bool := startsWith s.data start.data

/-- The loop of `execTestCase` over the argument expressions of a case. -/
def caseArgs (w : World) (ctx : EvalContext) :
    GoMap Expression → GoMap CtyValue → Except Err (GoMap CtyValue)
  | [], caseFields => .ok caseFields
  | (k, expr) :: rest, caseFields =>
    match DecodeExpression w expr ctx .dynamic fromCtyValue with
    | .error diags => .error diags
    | .ok v => caseArgs w ctx rest (GoMap.set caseFields k v)

/-- The loop of `execTestCase` over the assertions of a test: an assertion that
holds adds the line `PASS: <name>`; the first error ends the loop, and an
assertion failure is wrapped with the name of the case. -/
def testAsserts (w : World) (ctx : EvalContext) (c : Case) :
    List Assert → List String → Outcome (Except Err (List String))
  | [], lines => .ret (.ok lines)
  | a :: rest, lines =>
    match execAssert w ctx a with
    | .panic msg => .panic msg
    | .outOfFuel => .outOfFuel
    | .ret (some err) =>
      if HasPrefix (err.Error w) "assertion \"" then .ret (.error (.case c.Name err))
      else .ret (.error err)
    | .ret none => testAsserts w ctx c rest (lines ++ ["PASS: " ++ a.Name])

/-- `App.execTestCase`: builds the context of a case (`context`, `var`,
`case`), executes the run of the test and, when the test has assertions, lets
them decide: the result is then the report of `PASS` lines, whatever the run
returned. -/
def execTestCase (w : World) (run : Runner) (t : Test) (c : Case) :
    Outcome (Option Result × Option Err) :=
  let ctx0 : EvalContext := { Variables := [("context", getContext w t.SourceLocator)] }
  match getVarialbles w ctx0 t.Variables with
  | .panic msg => .panic msg
  | .outOfFuel => .outOfFuel
  | .ret (_, some err) => .ret (none, some err)
  | .ret (vars, none) =>
    let ctx1 : EvalContext := { Variables := GoMap.set ctx0.Variables "var" vars }
    match caseArgs w ctx1 c.Args [] with
    | .error diags => .ret (none, some diags)
    | .ok caseFields =>
      let ctx2 : EvalContext :=
        { Variables := GoMap.set ctx1.Variables "case" (ObjectVal caseFields) }
      match execRun w run ctx2 (some t.Run) with
      | .panic msg => .panic msg
      | .outOfFuel => .outOfFuel
      | .ret (ctx3, res, err) =>
        match t.Assert with
        | [] => .ret (res, err)
        | _ :: _ =>
          match testAsserts w ctx3 c t.Assert [] with
          | .panic msg => .panic msg
          | .outOfFuel => .outOfFuel
          | .ret (.error e) => .ret (none, some e)
          | .ret (.ok lines) => .ret (some { Stdout := "\n".intercalate lines }, none)

/-! ## Paths into composed values -/

/-- Whether a YAML value is a mapping. -/
def Yaml.isMap : Yaml → Bool
  | .map _ => true
  | _ => false

/-- The value a YAML document holds at a path of mapping keys. -/
def Yaml.atPath : Yaml → List String → Option Yaml
  | y, [] => some y
  | .map kvs, k :: ks =>
    match GoMap.get kvs k with
    | some v => Yaml.atPath v ks
    | none => none
  | _, _ :: _ => none

/-- The value a typed value holds at a path of attribute names. -/
def CtyValue.atPath : CtyValue → List String → Option CtyValue
  | v, [] => some v
  | .object attrs, k :: ks =>
    match GoMap.get attrs k with
    | some v => CtyValue.atPath v ks
    | none => none
  | _, _ :: _ => none

mutual
/-- The keys of every mapping of a YAML value are distinct, as the keys of a
Go map are. -/
def Yaml.uniqueKeys : Yaml → Prop
  | .seq xs => Yaml.uniqueKeysList xs
  | .map kvs => (GoMap.keys kvs).Nodup ∧ Yaml.uniqueKeysEntries kvs
  | _ => True
/-- Distinct keys in every element of a sequence. -/
def Yaml.uniqueKeysList : List Yaml → Prop
  | [] => True
  | x :: xs => Yaml.uniqueKeys x ∧ Yaml.uniqueKeysList xs
/-- Distinct keys in every value of a mapping. -/
def Yaml.uniqueKeysEntries : List (String × Yaml) → Prop
  | [] => True
  | (_, v) :: rest => Yaml.uniqueKeys v ∧ Yaml.uniqueKeysEntries rest
end

/-! ## Example documents -/

/-- A position at a byte offset of the first line. -/
def exPos (byte : Nat) : Pos := { Line := 1, Column := byte + 1, Byte := byte }

/-- A range of the example file `main.hcl`. -/
def exRange (start stop : Nat) : HclRange :=
  { Filename := "main.hcl", Start := exPos start, End := exPos stop }

/-- A literal expression: it evaluates to `v` in every context. -/
def litExpr (v : CtyValue) : Expression :=
  { Range := exRange 0 1, Value := fun _ => (v, []), Variables := [],
    TypeConstraint := .error ["Invalid type specification"] }

/-- An attribute that is not set: `gohcl` puts a static null expression with
an empty range in its place. -/
def absentExpr : Expression :=
  { Range := exRange 0 0, Value := fun _ => (.null .dynamic, []), Variables := [],
    TypeConstraint := .error ["Invalid type specification"] }

/-- A type expression such as `string` or `list(string)`: it is no value
(evaluating it needs variables or functions that no context has), and
`typeexpr.TypeConstraint` reads it as the type `t`. -/
def typeExpr (t : CtyType) : Expression :=
  { Range := exRange 0 1, Value := fun _ => (.unknown .dynamic, ["Variables not allowed"]),
    Variables := [], TypeConstraint := .ok t }

/-- The body of a `source file` block with the given path and no default. -/
def fileBody (path : String) : Body :=
  { decodeSourceFile := fun _ => .ok { Path := path, Default := none },
    decodeSourceJob := fun _ => .error ["Unsupported argument"] }

/-- The conversion of a tuple of strings to a list of string, the one
conversion of go-cty the examples need. -/
def exConvert (v : CtyValue) (want : CtyType) : Except String CtyValue :=
  match v, want with
  | .tuple vs, .list .string =>
    if vs.all (fun x => CtyType.beq x.type .string) then .ok (.list .string vs)
    else .error "string required"
  | _, _ => .error "no conversion"

/-- The mapping of the example file `a.yaml`: `a: {x: 1}`, `b: 2`. -/
def exYamlA : GoMap Yaml := [("a", .map [("x", .int 1)]), ("b", .int 2)]

/-- The mapping of the example file `b.yaml`: `a: {}`, `b: 0`. -/
def exYamlB : GoMap Yaml := [("a", .map []), ("b", .int 0)]

/-- The verb `%q` on a text of printable characters, line feeds and tabs: the
text between double quotes, with a backslash before each double quote and
backslash, and a line feed and a tab written `\n` and `\t`. -/
def exQuote (s : String) : String :=
  "\"" ++ String.mk (s.data.flatMap fun c =>
    if c = Char.ofNat 34 ∨ c = Char.ofNat 92 then [Char.ofNat 92, c]
    else if c = Char.ofNat 10 then [Char.ofNat 92, 'n']
    else if c = Char.ofNat 9 then [Char.ofNat 92, 't']
    else [c]) ++ "\""

/-- The surroundings of the examples: two YAML files and the source files
`main.hcl` and `note.hcl`, the second with a comment that holds a character of
two bytes. The one string of the examples that is not in normal form is `e`
followed by the combining acute accent. -/
def exWorld : World :=
  { convert := exConvert
    quote := exQuote
    nfc := fun s => if s = "e\u0301" then "\u00e9" else s
    dirname := fun _ => "."
    readFile := fun path =>
      if path = "a.yaml" then .ok "a: {x: 1}\nb: 2\n"
      else if path = "b.yaml" then .ok "a: {}\nb: 0\n"
      else if path = "main.hcl" then .ok "var.x == 2\n"
      else if path = "note.hcl" then .ok "# \u00e9\nvar.x == 2\n"
      else .error "no such file or directory"
    garbled := fun _ _ _ => "\ufffd"
    yamlUnmarshal := fun data =>
      if data = "a: {x: 1}\nb: 2\n" then .ok exYamlA
      else if data = "a: {}\nb: 0\n" then .ok exYamlB
      else if data = "" then .ok []
      else .error "yaml: unsupported document"
    capture := fun _ _ _ => ("", "", none) }

/-- A job with the given name and nothing else. -/
def emptyJob (name : String) : JobSpec :=
  { Name := name, Parameters := [], Options := [], Configs := [], Variables := [],
    SourceLocator := litExpr (.string "main.hcl"), Exec := none, Assert := [], Run := none,
    Steps := [] }

/-- The config block `c` with the two file sources `a.yaml` and `b.yaml`. -/
def exConfig : Config :=
  { Name := "c", Sources := [{ Type_ := "file", Body := fileBody "a.yaml" },
                             { Type_ := "file", Body := fileBody "b.yaml" }] }

/-- A job whose only declaration is the config block `c`. -/
def exConfigJob : JobSpec := { emptyJob "conf" with Configs := [exConfig] }

/-- A document with the given jobs and an empty root job. -/
def exDocument (jobs : List JobSpec) : HCL2Config :=
  { Jobs := jobs, Tests := [], JobSpec := emptyJob "" }

/-- A runner that is never called. -/
def noRunner : Runner := fun _ _ _ => .outOfFuel

/-- The job `main` of the steps example: two steps, `s1` running the job `one`
and `s2` running the job `two`. -/
def exStepsJob : JobSpec :=
  { emptyJob "main" with
    Steps := [{ Name := "s1", Run := some { Name := "one", Args := [] } },
              { Name := "s2", Run := some { Name := "two", Args := [] } }] }

/-- The document of the steps example. -/
def exStepsDocument : HCL2Config := exDocument [exStepsJob, emptyJob "one", emptyJob "two"]

/-- The application of the steps example. -/
def exStepsApp : App :=
  { Config := some exStepsDocument, jobByName := some (jobTable exStepsDocument) }

/-- The traversal `var.x` at the start of `main.hcl`. -/
def exVarX : Traversal :=
  { SourceRange := exRange 0 5
    TraverseAbs := fun ctx =>
      match GoMap.get ctx.Variables "var" with
      | none => .error ["Unknown variable"]
      | some v =>
        match v.getAttr "x" with
        | none => .error ["Unsupported attribute"]
        | some x => .ok x }

/-- The condition `var.x == 2`, the first line of `main.hcl`. -/
def exCond : Expression :=
  { Range := exRange 0 10
    Value := fun ctx =>
      match ctx with
      | none => (.unknown .bool, ["Variables not allowed"])
      | some ctx =>
        match exVarX.TraverseAbs ctx with
        | .ok (.number q) => (.bool (decide (q = 2)), [])
        | .ok _ => (.unknown .bool, ["Invalid operand"])
        | .error ds => (.unknown .bool, ds)
    Variables := [exVarX]
    TypeConstraint := .error ["Invalid type specification"] }

/-- The traversal `var.x` on the second line of `note.hcl`, behind a comment
whose last character takes two bytes. -/
def exNoteVarX : Traversal :=
  { exVarX with
    SourceRange := { Filename := "note.hcl", Start := { Line := 2, Column := 1, Byte := 5 },
                     End := { Line := 2, Column := 6, Byte := 10 } } }

/-- The condition `var.x == 2`, the second line of `note.hcl`. -/
def exNoteCond : Expression :=
  { exCond with
    Range := { Filename := "note.hcl", Start := { Line := 2, Column := 1, Byte := 5 },
               End := { Line := 2, Column := 11, Byte := 15 } }
    Variables := [exNoteVarX] }

/-- A job with the variable `x = 1` and the assertion `eq` that `var.x == 2`. -/
def exAssertJob : JobSpec :=
  { emptyJob "check" with
    Variables := [{ Name := "x", Type_ := typeExpr .number, Value := litExpr (.number 1) }]
    Assert := [{ Name := "eq", Condition := exCond }] }

/-- The job of `exAssertJob` with a step in front that runs the job `one`. -/
def exAssertStepsJob : JobSpec :=
  { exAssertJob with
    Name := "checked"
    Steps := [{ Name := "s1", Run := some { Name := "one", Args := [] } }] }

/-- The document of the assertion examples. -/
def exAssertDocument : HCL2Config :=
  exDocument [exAssertJob, exAssertStepsJob, emptyJob "one"]

/-- The application of the assertion examples. -/
def exAssertApp : App :=
  { Config := some exAssertDocument, jobByName := some (jobTable exAssertDocument) }

/-- Whether a text contains another (`strings.Contains`). -/
def contains (text part : String) : Prop := part.data <:+: text.data

/-- A job whose parameter `p` has the type expression `42`, which is no type,
and neither default nor value. -/
def exBadTypeJob : JobSpec :=
  { emptyJob "bad" with
    Parameters := [{ Name := "p", Type_ := litExpr (.number 42), Default := absentExpr }] }

/-- A job whose parameter `p` and option `o` are strings without default. -/
def exMissingJob : JobSpec :=
  { emptyJob "greet" with
    Parameters := [{ Name := "p", Type_ := typeExpr .string, Default := absentExpr }]
    Options := [{ Name := "o", Type_ := typeExpr .string, Default := absentExpr }] }

/-- The application whose only job is `greet`. -/
def exMissingApp : App :=
  { Config := some (exDocument [exMissingJob]),
    jobByName := some (jobTable (exDocument [exMissingJob])) }

/-- The variable `n`, declared a number, with the value `"a"`. -/
def exTypedVar : Variable :=
  { Name := "n", Type_ := typeExpr .number, Value := litExpr (.string "a") }

/-- The variable `xs`, declared a list of string, with the tuple literal
`["a"]` as its value. -/
def exListVar : Variable :=
  { Name := "xs", Type_ := typeExpr (.list .string), Value := litExpr (.tuple [.string "a"]) }

/-- The variable `x` with the value `"a"` and no declared type. -/
def exUntypedVar : Variable :=
  { Name := "x", Type_ := absentExpr, Value := litExpr (.string "a") }

/-- A job whose parameter `p` is declared `object({a = string})` and has the
default `{a = "x"}`, an object of exactly that type. -/
def exObjectParamJob : JobSpec :=
  { emptyJob "obj" with
    Parameters := [{ Name := "p", Type_ := typeExpr (.object [("a", .string)]),
                     Default := litExpr (.object [("a", .string "x")]) }] }

/-- A loader for a directory with the one file `main.hcl` that decodes to the
given document. -/
def exLoader (cc : HCL2Config) : Loader :=
  { FindHCLFiles := fun _ => .ok ["main.hcl"], parse := fun _ => [], decode := fun _ => (cc, []) }

/-- A document with two job blocks named `dup`: the first without steps, the
second with the step `s1`. -/
def exDupDocument : HCL2Config :=
  exDocument [emptyJob "dup",
    { emptyJob "dup" with Steps := [{ Name := "s1", Run := some { Name := "one", Args := [] } }] }]

/-- The entry of the binding list for a traversal of a failed condition, as the
specification words it: `<source text>=<value> (<type>)` for a traversal that
resolves in the context, and no entry for one that does not. -/
def bindingOf (w : World) (ctx : EvalContext) (b : String) (t : Traversal) : Option String :=
  match t.TraverseAbs ctx with
  | .error _ => none
  | .ok v =>
    match ctyToGo v, sliceBytes w b t.SourceRange.Start.Byte t.SourceRange.End.Byte with
    | .ok g, some raw => some (binding (TrimSpace raw) g)
    | _, _ => none

/-- A typed value is a scalar the value bridge converts: a string, a whole
number in the range of `int`, or a boolean. -/
def CtyValue.bridged (v : CtyValue) : Prop :=
  (∃ s, v = .string s) ∨ (∃ i : Int, minInt ≤ i ∧ i ≤ maxInt ∧ v = .number i) ∨
    (∃ b, v = .bool b)

/-- The traversal `var.xs`. -/
def exVarXs : Traversal :=
  { SourceRange := exRange 0 6
    TraverseAbs := fun ctx =>
      match GoMap.get ctx.Variables "var" with
      | none => .error ["Unknown variable"]
      | some v =>
        match v.getAttr "xs" with
        | none => .error ["Unsupported attribute"]
        | some x => .ok x }

/-- A condition over `var.xs` that is false, such as `length(var.xs) == 2` for a
list of one element. -/
def exListCond : Expression :=
  { Range := exRange 0 9, Value := fun _ => (.bool false, []), Variables := [exVarXs],
    TypeConstraint := .error ["Invalid type specification"] }

/-- A context in which `var.xs` is the list `["a"]`. -/
def exListCtx : EvalContext :=
  { Variables := [("var", ObjectVal [("xs", .list .string [.string "a"])])] }

/-- The test `greets` of the example: it runs the job `greet` without values,
which fails for the missing parameter, and asserts two conditions that are
true. -/
def exTest : Test :=
  { Name := "greets", Variables := [], Cases := [],
    Run := { Name := "greet", Args := [] },
    Assert := [{ Name := "first", Condition := litExpr (.bool true) },
               { Name := "second", Condition := litExpr (.bool true) }],
    SourceLocator := litExpr (.string "main.hcl") }

/-- The application of the test example, with the job `greet`. -/
def exTestApp : App :=
  { Config := some (exDocument [exMissingJob]),
    jobByName := some (jobTable (exDocument [exMissingJob])) }

/-- The body of a `source job` block that names a job and passes no arguments. -/
def jobBody (name : String) : Body :=
  { decodeSourceFile := fun _ => .error ["Unsupported argument"],
    decodeSourceJob := fun _ =>
      .ok { Name := name, Args := litExpr (.map .dynamic []), Format := none } }

/-- A job whose config block `c` has one source, the output of the job `one`. -/
def exSourceJob : JobSpec :=
  { emptyJob "sourced" with
    Configs := [{ Name := "c", Sources := [{ Type_ := "job", Body := jobBody "one" }] }] }

/-- The document of the job-source example. -/
def exSourceDocument : HCL2Config := exDocument [exSourceJob, emptyJob "one"]

/-- The application of the job-source example. -/
def exSourceApp : App :=
  { Config := some exSourceDocument, jobByName := some (jobTable exSourceDocument) }

/-! # Theorems -/

/-! ## Go maps and merging -/

theorem GoMap.get_set {α : Type} (m : GoMap α) (k k2 : String) (v : α) :
    GoMap.get (GoMap.set m k v) k2 = if k = k2 then some v else GoMap.get m k2 := by
  induction m with
  | nil => simp [GoMap.set, GoMap.get]
  | cons e rest ih =>
    obtain ⟨k0, w⟩ := e
    by_cases h0 : k0 = k
    · subst h0
      by_cases h2 : k0 = k2 <;> simp [GoMap.set, GoMap.get, h2]
    · by_cases h2 : k0 = k2
      · subst h2
        simp [GoMap.set, GoMap.get, h0, Ne.symm h0]
      · simp [GoMap.set, GoMap.get, h0, h2, ih]

theorem GoMap.get_eq_none {α : Type} (m : GoMap α) (k : String) (h : k ∉ GoMap.keys m) :
    GoMap.get m k = none := by
  induction m with
  | nil => rfl
  | cons e rest ih =>
    obtain ⟨k0, w⟩ := e
    simp [GoMap.keys] at h
    have h0 : ¬ k0 = k := fun h1 => h.1 h1.symm
    simp only [GoMap.get, h0, if_false]
    apply ih
    simp [GoMap.keys]
    exact h.2

theorem Yaml.uniqueKeys_get {kvs : List (String × Yaml)} (h : Yaml.uniqueKeysEntries kvs)
    {k : String} {v : Yaml} (hg : GoMap.get kvs k = some v) : Yaml.uniqueKeys v := by
  induction kvs with
  | nil => simp [GoMap.get] at hg
  | cons e rest ih =>
    obtain ⟨k0, w⟩ := e
    simp only [Yaml.uniqueKeysEntries] at h
    by_cases h0 : k0 = k
    · simp [GoMap.get, h0] at hg
      subst hg; exact h.1
    · simp [GoMap.get, h0] at hg
      exact ih h.2 hg

theorem Merge.get_entries (src : List (String × Yaml)) (hnd : (GoMap.keys src).Nodup)
    (dst : GoMap Yaml) (k : String) :
    GoMap.get (Merge.entries dst src) k =
      match GoMap.get src k with
      | some v => some (Merge.value (GoMap.get dst k) v)
      | none => GoMap.get dst k := by
  induction src generalizing dst with
  | nil => simp [Merge.entries, GoMap.get]
  | cons e rest ih =>
    obtain ⟨k0, v0⟩ := e
    simp [GoMap.keys] at hnd
    have hnd2 : (GoMap.keys rest).Nodup := by simpa [GoMap.keys] using hnd.2
    rw [Merge.entries, ih hnd2]
    by_cases h0 : k0 = k
    · subst h0
      have hnone : GoMap.get rest k0 = none := by
        apply GoMap.get_eq_none
        simp [GoMap.keys]
        exact hnd.1
      simp [hnone, GoMap.get, GoMap.get_set]
    · simp [GoMap.get, h0, GoMap.get_set]

theorem Merge.value_not_map (old : Option Yaml) (v : Yaml) (h : v.isMap = false) :
    Merge.value old v = v := by
  cases v with
  | map m => simp [Yaml.isMap] at h
  | _ =>
    cases old with
    | none => simp [Merge.value]
    | some o => cases o <;> simp [Merge.value]

theorem Yaml.atPath_not_map (v : Yaml) (h : v.isMap = false) (k : String) (ks : List String) :
    Yaml.atPath v (k :: ks) = none := by
  cases v <;> first | rfl | simp [Yaml.isMap] at h

/-- A value of the source that is not a mapping is what the merged value holds
at its path. -/
theorem Merge.atPath_leaf (P : List String) (old : Option Yaml) (vb v : Yaml)
    (hwf : Yaml.uniqueKeys vb) (hv : Yaml.atPath vb P = some v) (hleaf : v.isMap = false) :
    Yaml.atPath (Merge.value old vb) P = some v := by
  induction P generalizing old vb with
  | nil =>
    simp [Yaml.atPath] at hv
    subst hv
    rw [Merge.value_not_map old vb hleaf]; simp [Yaml.atPath]
  | cons k ks ih =>
    cases vb with
    | map mb =>
      simp only [Yaml.uniqueKeys] at hwf
      simp only [Yaml.atPath] at hv
      cases hgb : GoMap.get mb k with
      | none => simp [hgb] at hv
      | some vb2 =>
        simp only [hgb] at hv
        have hwf2 := Yaml.uniqueKeys_get hwf.2 hgb
        have key : ∀ dst : GoMap Yaml,
            Yaml.atPath (.map (Merge.entries dst mb)) (k :: ks) = some v := by
          intro dst
          simp only [Yaml.atPath, Merge.get_entries mb hwf.1 dst k, hgb]
          exact ih _ vb2 hwf2 hv
        cases old with
        | none =>
          have : Merge.value none (.map mb) = .map mb := by simp [Merge.value]
          rw [this]; simp only [Yaml.atPath, hgb]; exact hv
        | some o =>
          cases o with
          | map d => simp only [Merge.value]; exact key d
          | _ =>
            simp only [Merge.value, Yaml.atPath, hgb]
            exact hv
    | _ => simp [Yaml.atPath] at hv

/-- Where both documents hold a mapping, the merged value holds the merge of
the two. -/
theorem Merge.atPath_both (P : List String) (va vb : Yaml) (ma mb : GoMap Yaml)
    (hwf : Yaml.uniqueKeys vb) (ha : Yaml.atPath va P = some (.map ma))
    (hb : Yaml.atPath vb P = some (.map mb)) :
    Yaml.atPath (Merge.value (some va) vb) P = some (.map (Merge ma mb)) := by
  induction P generalizing va vb with
  | nil =>
    simp [Yaml.atPath] at ha hb
    subst ha; subst hb
    simp [Merge.value, Yaml.atPath, Merge]
  | cons k ks ih =>
    cases vb with
    | map b =>
      cases va with
      | map a =>
        simp only [Yaml.uniqueKeys] at hwf
        simp only [Yaml.atPath] at ha hb
        cases hgb : GoMap.get b k with
        | none => simp [hgb] at hb
        | some vb2 =>
          cases hga : GoMap.get a k with
          | none => simp [hga] at ha
          | some va2 =>
            simp only [hgb] at hb
            simp only [hga] at ha
            simp only [Merge.value, Yaml.atPath, Merge.get_entries b hwf.1 a k, hgb, hga]
            exact ih va2 vb2 (Yaml.uniqueKeys_get hwf.2 hgb) ha hb
      | _ => simp [Yaml.atPath] at ha
    | _ => simp [Yaml.atPath] at hb

/-- A mapping of the source replaces what the destination holds at its path,
when that is no mapping (nothing, a scalar or a sequence). -/
theorem Merge.atPath_map_over_other (P : List String) (old : Option Yaml) (vb : Yaml)
    (mb : GoMap Yaml) (hwf : Yaml.uniqueKeys vb) (hb : Yaml.atPath vb P = some (.map mb))
    (ha : ∀ va ma, old = some va → Yaml.atPath va P ≠ some (.map ma)) :
    Yaml.atPath (Merge.value old vb) P = some (.map mb) := by
  induction P generalizing old vb with
  | nil =>
    simp only [Yaml.atPath, Option.some.injEq] at hb
    subst hb
    cases old with
    | none => simp [Merge.value, Yaml.atPath]
    | some va =>
      cases va with
      | map a => exact absurd (by simp [Yaml.atPath]) (ha (.map a) a rfl)
      | _ => simp [Merge.value, Yaml.atPath]
  | cons k ks ih =>
    cases vb with
    | map b =>
      simp only [Yaml.uniqueKeys] at hwf
      simp only [Yaml.atPath] at hb
      cases hgb : GoMap.get b k with
      | none => simp [hgb] at hb
      | some vb2 =>
        simp only [hgb] at hb
        have hwf2 := Yaml.uniqueKeys_get hwf.2 hgb
        have hplain : Yaml.atPath (.map b) (k :: ks) = some (.map mb) := by
          simp only [Yaml.atPath, hgb]; exact hb
        cases old with
        | none =>
          have : Merge.value none (.map b) = .map b := by simp [Merge.value]
          rw [this]; exact hplain
        | some va =>
          cases va with
          | map a =>
            simp only [Merge.value, Yaml.atPath, Merge.get_entries b hwf.1 a k, hgb]
            apply ih _ vb2 hwf2 hb
            intro va2 ma hva2 hat
            apply ha (.map a) ma rfl
            simp only [Yaml.atPath, hva2]
            exact hat
          | _ =>
            simp only [Merge.value]
            exact hplain
    | _ => simp [Yaml.atPath] at hb

/-- Where the source sets nothing at a path and replaces no mapping above it,
the merged mapping holds what the destination held. -/
theorem Merge.atPath_untouched (P : List String) (a b : GoMap Yaml)
    (hwf : Yaml.uniqueKeys (.map b)) (hnone : Yaml.atPath (.map b) P = none)
    (hpre : ∀ Q v, Q <+: P → Yaml.atPath (.map b) Q = some v → v.isMap = true) :
    Yaml.atPath (.map (Merge a b)) P = Yaml.atPath (.map a) P := by
  induction P generalizing a b with
  | nil => simp [Yaml.atPath] at hnone
  | cons k ks ih =>
    simp only [Yaml.uniqueKeys] at hwf
    simp only [Merge, Yaml.atPath, Merge.get_entries b hwf.1 a k]
    cases hgb : GoMap.get b k with
    | none => simp
    | some vb =>
      have hmap : vb.isMap = true := by
        apply hpre [k] vb
        · simp
        · simp [Yaml.atPath, hgb]
      cases vb with
      | map mb =>
        have hnone2 : Yaml.atPath (.map mb) ks = none := by
          simpa [Yaml.atPath, hgb] using hnone
        have hks : ks ≠ [] := by
          intro h; subst h; simp [Yaml.atPath] at hnone2
        obtain ⟨k2, ks2, rfl⟩ := List.exists_cons_of_ne_nil hks
        have hwf2 := Yaml.uniqueKeys_get hwf.2 hgb
        have hpre2 : ∀ Q v, Q <+: (k2 :: ks2) → Yaml.atPath (.map mb) Q = some v →
            v.isMap = true := by
          intro Q v hQ hv
          apply hpre (k :: Q) v
          · exact (List.cons_prefix_cons).2 ⟨rfl, hQ⟩
          · simpa [Yaml.atPath, hgb] using hv
        cases hga : GoMap.get a k with
        | none =>
          simp only [Merge.value]
          exact hnone2
        | some va =>
          cases va with
          | map ma =>
            simp only [Merge.value]
            have := ih ma mb hwf2 hnone2 hpre2
            simpa [Merge] using this
          | _ =>
            simp only [Merge.value]
            rw [hnone2]
            simp [Yaml.atPath]
      | _ => simp [Yaml.isMap] at hmap

theorem GoMap.set_of_not_mem {α : Type} (m : GoMap α) (k : String) (v : α)
    (h : k ∉ GoMap.keys m) : GoMap.set m k v = m ++ [(k, v)] := by
  induction m with
  | nil => rfl
  | cons e rest ih =>
    obtain ⟨k0, w⟩ := e
    simp [GoMap.keys] at h
    have h0 : ¬ k0 = k := fun h1 => h.1 h1.symm
    simp only [GoMap.set, h0, if_false, List.cons_append]
    rw [ih]
    simpa [GoMap.keys] using h.2

theorem Merge.entries_fresh (src : List (String × Yaml)) (dst : GoMap Yaml)
    (hnd : (GoMap.keys src).Nodup) (hdis : ∀ k ∈ GoMap.keys src, k ∉ GoMap.keys dst) :
    Merge.entries dst src = dst ++ src := by
  induction src generalizing dst with
  | nil => simp [Merge.entries]
  | cons e rest ih =>
    obtain ⟨k0, v0⟩ := e
    simp only [GoMap.keys, List.map_cons, List.nodup_cons] at hnd
    have hk0 : k0 ∉ GoMap.keys dst := hdis k0 (by simp [GoMap.keys])
    rw [Merge.entries, GoMap.get_eq_none dst k0 hk0]
    have hv : Merge.value none v0 = v0 := by cases v0 <;> simp [Merge.value]
    rw [hv, GoMap.set_of_not_mem dst k0 v0 hk0, ih _ hnd.2]
    · simp
    · intro k hk
      have hk2 : k ∉ GoMap.keys dst := hdis k (by simp [GoMap.keys] at hk ⊢; right; exact hk)
      simp only [GoMap.keys, List.map_append, List.map_cons, List.map_nil, List.mem_append,
        List.mem_singleton, not_or]
      refine ⟨hk2, ?_⟩
      rintro rfl
      exact hnd.1 hk

/-- Merging a mapping into the empty mapping gives the mapping itself. -/
theorem Merge.empty_left (a : GoMap Yaml) (hnd : (GoMap.keys a).Nodup) : Merge [] a = a := by
  simp [Merge, Merge.entries_fresh a [] hnd (by simp [GoMap.keys])]

theorem yamlToCtyAttrs_get (kvs : List (String × Yaml)) (k : String) :
    GoMap.get (yamlToCtyAttrs kvs) k = (GoMap.get kvs k).map yamlToCty := by
  induction kvs with
  | nil => simp [yamlToCtyAttrs, GoMap.get]
  | cons e rest ih =>
    obtain ⟨k0, v0⟩ := e
    by_cases h0 : k0 = k <;> simp [yamlToCtyAttrs, GoMap.get, h0, ih]

/-- The typed value of a document holds, at every path, the typed value of what
the document holds there. -/
theorem yamlToCty_atPath (P : List String) (y : Yaml) :
    CtyValue.atPath (yamlToCty y) P = (Yaml.atPath y P).map yamlToCty := by
  induction P generalizing y with
  | nil => simp [CtyValue.atPath, Yaml.atPath]
  | cons k ks ih =>
    cases y with
    | map kvs =>
      simp only [yamlToCty, CtyValue.atPath, Yaml.atPath, yamlToCtyAttrs_get]
      cases GoMap.get kvs k with
      | none => simp
      | some v => simp [ih]
    | _ => simp [yamlToCty, CtyValue.atPath, Yaml.atPath]

theorem getConfigsFrom_keeps (w : World) (run : Runner) (confCtx : EvalContext) (j : JobSpec)
    (post : List Config) (fields : GoMap CtyValue) (V : CtyValue) (k : String)
    (hne : ∀ c2 ∈ post, c2.Name ≠ k)
    (hV : getConfigsFrom w run confCtx j post fields = .ret (.ok V)) :
    V.getAttr k = GoMap.get fields k := by
  induction post generalizing fields with
  | nil =>
    simp only [getConfigsFrom, Outcome.ret.injEq, Except.ok.injEq] at hV
    subst hV; rfl
  | cons c rest ih =>
    simp only [getConfigsFrom] at hV
    split at hV <;> try (simp at hV)
    rename_i v hv
    have := ih (GoMap.set fields c.Name v) (fun c2 h2 => hne c2 (by simp [h2])) hV
    rw [this, GoMap.get_set]
    have : c.Name ≠ k := hne c (by simp)
    simp [this]

theorem getConfigsFrom_block (w : World) (run : Runner) (confCtx : EvalContext) (j : JobSpec)
    (pre post : List Config) (c : Config) (fields : GoMap CtyValue) (V : CtyValue)
    (hne : ∀ c2 ∈ post, c2.Name ≠ c.Name)
    (hV : getConfigsFrom w run confCtx j (pre ++ c :: post) fields = .ret (.ok V)) :
    ∃ vc, composeConfig w run confCtx j c = .ret (.ok vc) ∧ V.getAttr c.Name = some vc := by
  induction pre generalizing fields with
  | nil =>
    simp only [List.nil_append, getConfigsFrom] at hV
    split at hV <;> try (simp at hV)
    rename_i v hv
    refine ⟨v, hv, ?_⟩
    rw [getConfigsFrom_keeps w run confCtx j post _ V c.Name hne hV, GoMap.get_set]
    simp
  | cons c0 rest ih =>
    simp only [List.cons_append, getConfigsFrom] at hV
    split at hV <;> try (simp at hV)
    exact ih _ hV

theorem composeConfig_two (w : World) (run : Runner) (confCtx : EvalContext) (j : JobSpec)
    (c : Config) (sA sB : Source) (A B : GoMap Yaml) (hsrc : c.Sources = [sA, sB])
    (hA : loadSource w run confCtx j c 0 sA = .ret (.ok A))
    (hB : loadSource w run confCtx j c 1 sB = .ret (.ok B)) :
    composeConfig w run confCtx j c = .ret (.ok (yamlToCty (.map (Merge (Merge [] A) B)))) := by
  simp [composeConfig, hsrc, mergeSources, hA, hB]

/-! ## C1: config composition -/

/-- C1 (amended): for a config block whose two sources A then B decode to YAML
mappings: the composed value holds at a path P the value of B at P whenever B
sets P, unless A and B both hold a mapping at P (so a scalar or a sequence of
B, empty ones included, always wins, and so does a mapping of B where A holds
nothing, a scalar or a sequence); the recursive merge of the two mappings when
A and B both hold a mapping at P; and the value of A at P when B sets nothing
at P and no value other than a mapping above P. -/
theorem getConfigs_two_sources (w : World) (run : Runner) (confCtx : EvalContext)
    (cc : HCL2Config) (j : JobSpec) (pre post : List Config) (c : Config) (sA sB : Source)
    (A B : GoMap Yaml) (V : CtyValue)
    (hspecs : cc.JobSpec.Configs ++ j.Configs = pre ++ c :: post)
    (hlast : ∀ c2 ∈ post, c2.Name ≠ c.Name)
    (hsrc : c.Sources = [sA, sB])
    (hA : loadSource w run confCtx j c 0 sA = .ret (.ok A))
    (hB : loadSource w run confCtx j c 1 sB = .ret (.ok B))
    (hwfA : Yaml.uniqueKeys (.map A)) (hwfB : Yaml.uniqueKeys (.map B))
    (hV : getConfigs w run confCtx cc j = .ret (.ok V)) :
    ∃ Vc, V.getAttr c.Name = some Vc ∧ ∀ P : List String,
      (∀ v, Yaml.atPath (.map B) P = some v →
        (v.isMap = false ∨ ∀ ma, Yaml.atPath (.map A) P ≠ some (.map ma)) →
        Vc.atPath P = some (yamlToCty v)) ∧
      (∀ ma mb, Yaml.atPath (.map A) P = some (.map ma) →
        Yaml.atPath (.map B) P = some (.map mb) →
        Vc.atPath P = some (yamlToCty (.map (Merge ma mb)))) ∧
      (Yaml.atPath (.map B) P = none →
        (∀ Q v, Q <+: P → Yaml.atPath (.map B) Q = some v → v.isMap = true) →
        Vc.atPath P = (Yaml.atPath (.map A) P).map yamlToCty) := by
  unfold getConfigs at hV
  rw [hspecs] at hV
  obtain ⟨vc, hvc, hget⟩ := getConfigsFrom_block w run confCtx j pre post c [] V hlast hV
  rw [composeConfig_two w run confCtx j c sA sB A B hsrc hA hB] at hvc
  simp only [Outcome.ret.injEq, Except.ok.injEq] at hvc
  have hAnd : (GoMap.keys A).Nodup := by
    simp only [Yaml.uniqueKeys] at hwfA; exact hwfA.1
  rw [Merge.empty_left A hAnd] at hvc
  refine ⟨vc, hget, ?_⟩
  subst hvc
  intro P
  refine ⟨?_, ?_, ?_⟩
  · intro v hv hcase
    rw [yamlToCty_atPath]
    by_cases hleaf : v.isMap = false
    · have := Merge.atPath_leaf P (some (.map A)) (.map B) v hwfB hv hleaf
      simp only [Merge.value] at this
      simp [Merge, this]
    · rcases hcase with h | hno
      · exact absurd h hleaf
      · cases v with
        | map mb =>
          have := Merge.atPath_map_over_other P (some (.map A)) (.map B) mb hwfB hv
            (by
              intro va ma hva
              simp only [Option.some.injEq] at hva
              subst hva
              exact hno ma)
          simp only [Merge.value] at this
          simp [Merge, this]
        | _ => simp [Yaml.isMap] at hleaf
  · intro ma mb ha hb
    rw [yamlToCty_atPath]
    have := Merge.atPath_both P (.map A) (.map B) ma mb hwfB ha hb
    simp only [Merge.value] at this
    simp [Merge, this]
  · intro hnone hpre
    rw [yamlToCty_atPath, Merge.atPath_untouched P A B hwfB hnone hpre]

/-- Witness of C1 (amended): the block `c` of the example, composed from `a.yaml`
and `b.yaml`. -/
theorem getConfigs_two_sources_witness :
    ∃ Vc, (ObjectVal [("c", yamlToCty (.map [("a", .map [("x", .int 1)]), ("b", .int 0)]))]).getAttr
        exConfig.Name = some Vc ∧ ∀ P : List String,
      (∀ v, Yaml.atPath (.map exYamlB) P = some v →
        (v.isMap = false ∨ ∀ ma, Yaml.atPath (.map exYamlA) P ≠ some (.map ma)) →
        Vc.atPath P = some (yamlToCty v)) ∧
      (∀ ma mb, Yaml.atPath (.map exYamlA) P = some (.map ma) →
        Yaml.atPath (.map exYamlB) P = some (.map mb) →
        Vc.atPath P = some (yamlToCty (.map (Merge ma mb)))) ∧
      (Yaml.atPath (.map exYamlB) P = none →
        (∀ Q v, Q <+: P → Yaml.atPath (.map exYamlB) Q = some v → v.isMap = true) →
        Vc.atPath P = (Yaml.atPath (.map exYamlA) P).map yamlToCty) :=
  getConfigs_two_sources exWorld noRunner { Variables := [] } (exDocument [exConfigJob])
    exConfigJob [] [] exConfig { Type_ := "file", Body := fileBody "a.yaml" }
    { Type_ := "file", Body := fileBody "b.yaml" } exYamlA exYamlB _
    rfl (by simp) rfl rfl rfl
    (by simp [Yaml.uniqueKeys, Yaml.uniqueKeysEntries, exYamlA, GoMap.keys])
    (by simp [Yaml.uniqueKeys, Yaml.uniqueKeysEntries, exYamlB, GoMap.keys])
    rfl

/-- Counterexample to C1 as stated: source B sets `a` to the empty mapping, yet
the composed value at `a` is the mapping of source A. -/
theorem getConfigs_empty_mapping_counterexample :
    ∃ V Vc, getConfigs exWorld noRunner { Variables := [] } (exDocument [exConfigJob])
        exConfigJob = .ret (.ok V) ∧
      V.getAttr "c" = some Vc ∧
      loadSource exWorld noRunner { Variables := [] } exConfigJob exConfig 1
        { Type_ := "file", Body := fileBody "b.yaml" } = .ret (.ok exYamlB) ∧
      Yaml.atPath (.map exYamlB) ["a"] = some (.map []) ∧
      Vc.atPath ["a"] = some (yamlToCty (.map [("x", .int 1)])) ∧
      Vc.atPath ["a"] ≠ some (yamlToCty (.map [])) := by
  refine ⟨_, _, rfl, rfl, rfl, rfl, rfl, ?_⟩
  simp [CtyValue.atPath, GoMap.get, yamlToCty, yamlToCtyAttrs, Merge, Merge.entries,
    Merge.value, GoMap.set, exYamlA, exYamlB]

/-! ## C2: step visibility -/

theorem execRun_keeps_step (w : World) (run : Runner) (ctx ctx2 : EvalContext)
    (r : Option RunJob) (res : Option Result) (err : Option Err)
    (h : execRun w run ctx r = .ret (ctx2, res, err)) :
    GoMap.get ctx2.Variables "step" = GoMap.get ctx.Variables "step" := by
  unfold execRun at h
  split at h
  · simp at h
  · split at h
    · simp only [Outcome.ret.injEq, Prod.mk.injEq] at h
      rw [← h.1]
    · split at h <;> try (simp at h; done)
      simp only [Outcome.ret.injEq, Prod.mk.injEq] at h
      rw [← h.1]
      simp [GoMap.get_set]

/-- The loop over a list of steps that ends without error has run every step
of a prefix of the list without error. -/
theorem execJobStepsFrom_prefix_ok (w : World) (run : Runner) (p1 rest : List Step)
    (ctx : EvalContext) (sr : GoMap CtyValue) (last : Option Result)
    (ctx1 : EvalContext) (last1 : Option Result)
    (h : execJobStepsFrom w run ctx sr (p1 ++ rest) last = .ret (ctx1, last1, none)) :
    ∃ ctxk lastk, execJobStepsFrom w run ctx sr p1 last = .ret (ctxk, lastk, none) := by
  induction p1 generalizing ctx sr last with
  | nil => exact ⟨ctx, last, by simp [execJobStepsFrom]⟩
  | cons s p ih =>
    simp only [List.cons_append, execJobStepsFrom] at h ⊢
    split at h <;> try (simp at h; done)
    rename_i ctx2 lastRes hrun
    exact ih _ _ _ h

/-- The state of the loop after a prefix of the steps: the rest of the steps is
run from the context `ctx1`, whose `step` variable is the object of the results
stored so far. -/
theorem execJobStepsFrom_append (w : World) (run : Runner) (pre rest : List Step)
    (ctx : EvalContext) (sr : GoMap CtyValue) (last : Option Result)
    (ctx1 : EvalContext) (last1 : Option Result)
    (h : execJobStepsFrom w run ctx sr pre last = .ret (ctx1, last1, none)) :
    ∃ sr1,
      execJobStepsFrom w run ctx sr (pre ++ rest) last =
        execJobStepsFrom w run ctx1 sr1 rest last1 ∧
      (pre = [] → sr1 = sr ∧ ctx1 = ctx) ∧
      (pre ≠ [] → GoMap.get ctx1.Variables "step" = some (ObjectVal sr1)) ∧
      (∀ name, name ∉ pre.map Step.Name → GoMap.get sr1 name = GoMap.get sr name) ∧
      (∀ name, name ∈ pre.map Step.Name → (GoMap.get sr1 name).isSome = true) := by
  induction pre generalizing ctx sr last with
  | nil =>
    simp only [execJobStepsFrom, Outcome.ret.injEq, Prod.mk.injEq, and_true] at h
    obtain ⟨rfl, rfl⟩ := h
    exact ⟨sr, by simp, by simp, by simp, by simp, by simp⟩
  | cons s p ih =>
    simp only [execJobStepsFrom] at h
    split at h <;> try (simp at h)
    rename_i ctx2 lastRes hrun
    obtain ⟨sr1, heq, hnil, hcons, hkeep, hmem⟩ := ih _ _ _ h
    refine ⟨sr1, ?_, by simp, ?_, ?_, ?_⟩
    · simp only [List.cons_append, execJobStepsFrom, hrun]
      exact heq
    · intro _
      by_cases hp : p = []
      · subst hp
        obtain ⟨rfl, rfl⟩ := hnil rfl
        simp [GoMap.get_set]
      · exact hcons hp
    · intro name hname
      simp only [List.map_cons, List.mem_cons, not_or] at hname
      rw [hkeep name hname.2, GoMap.get_set]
      simp [Ne.symm hname.1]
    · intro name hname
      simp only [List.map_cons, List.mem_cons] at hname
      by_cases hin : name ∈ p.map Step.Name
      · exact hmem name hin
      · rw [hkeep name hin, GoMap.get_set]
        rcases hname with h1 | h1
        · simp [h1]
        · exact absurd h1 hin

/-- The context `createJobContext` returns binds `param`, `opt`, `var` and
`context`, and nothing else. -/
theorem createJobContext_variables (w : World) (cc : HCL2Config) (j : JobSpec)
    (args opts : GoMap GoValue) (jobCtx : EvalContext)
    (h : createJobContext w cc j args opts = .ret (.ok jobCtx)) :
    ∃ p o v c, jobCtx.Variables = [("param", p), ("opt", o), ("var", v), ("context", c)] := by
  unfold createJobContext at h
  simp only at h
  split at h <;> try (simp at h)
  split at h <;> try (simp at h)
  split at h <;> try (simp at h; done)
  simp only [Outcome.ret.injEq, Except.ok.injEq] at h
  rw [← h]
  exact ⟨_, _, _, _, rfl⟩

/-- C2: in a run of a job whose steps have distinct names, the context in which
the run of a step is evaluated holds the results of exactly the steps before
it. `pre` are the steps before the step `s`, which all returned without
error, so that `s` is reached; `jobCtx` is the context `Run` passes to
`execJobSteps`. Then (1) the loop goes on with `s` in the context `ctx1`;
(2) for the first step, `ctx1` has no `step` variable; (3) for a later step,
`step` is an object with a field for a name exactly when a step before `s`
has that name, and the field of each earlier step `t` is the result object
of the run of `t`; (4) no step from `s` on has a field. -/
theorem execJobSteps_visibility (w : World) (run : Runner) (cc : HCL2Config) (j : JobSpec)
    (args opts : GoMap GoValue) (jobCtx0 : EvalContext) (conf : CtyValue)
    (pre post : List Step) (s : Step) (ctx1 : EvalContext) (last1 : Option Result)
    (hctx : createJobContext w cc j args opts = .ret (.ok jobCtx0))
    (hnames : ((pre ++ s :: post).map Step.Name).Nodup)
    (hpre : execJobSteps w run { Variables := GoMap.set jobCtx0.Variables "conf" conf } [] pre
      = .ret (ctx1, last1, none)) :
    (∃ sr1, execJobSteps w run { Variables := GoMap.set jobCtx0.Variables "conf" conf } []
        (pre ++ s :: post) = execJobStepsFrom w run ctx1 sr1 (s :: post) last1) ∧
    (pre = [] → GoMap.get ctx1.Variables "step" = none) ∧
    (pre ≠ [] → ∃ stepVal, GoMap.get ctx1.Variables "step" = some stepVal ∧
      (∀ name, (stepVal.getAttr name).isSome = true ↔ name ∈ pre.map Step.Name) ∧
      (∀ p1 t p2, pre = p1 ++ t :: p2 → ∃ ctxk lastk ctx2 r,
        execJobSteps w run { Variables := GoMap.set jobCtx0.Variables "conf" conf } [] p1
          = .ret (ctxk, lastk, none) ∧
        execRun w run ctxk t.Run = .ret (ctx2, r, none) ∧
        stepVal.getAttr t.Name = some (Result.toCty w r))) ∧
    (∀ stepVal t, GoMap.get ctx1.Variables "step" = some stepVal → t ∈ s :: post →
      stepVal.getAttr t.Name = none) := by
  obtain ⟨p, o, v, c, hvars⟩ := createJobContext_variables w cc j args opts jobCtx0 hctx
  have hfresh : GoMap.get (GoMap.set jobCtx0.Variables "conf" conf) "step" = none := by
    rw [hvars]; simp [GoMap.set, GoMap.get]
  unfold execJobSteps at hpre ⊢
  obtain ⟨sr1, heq, hnil, hcons, hkeep, hmem⟩ :=
    execJobStepsFrom_append w run pre (s :: post) _ _ _ ctx1 last1 hpre
  have hfields : ∀ name, (GoMap.get sr1 name).isSome = true ↔ name ∈ pre.map Step.Name := by
    intro name
    constructor
    · intro hsome
      by_contra hnot
      rw [hkeep name hnot] at hsome
      simp [GoMap.get] at hsome
    · exact hmem name
  refine ⟨⟨sr1, heq⟩, ?_, ?_, ?_⟩
  · intro hp
    obtain ⟨_, rfl⟩ := hnil hp
    exact hfresh
  · intro hp
    refine ⟨ObjectVal sr1, hcons hp, ?_, ?_⟩
    · intro name
      simpa [ObjectVal, CtyValue.getAttr] using hfields name
    · intro p1 t p2 hsplit
      subst hsplit
      obtain ⟨ctxk, lastk, hk⟩ :=
        execJobStepsFrom_prefix_ok w run p1 (t :: p2) _ _ _ ctx1 last1 hpre
      obtain ⟨srk, heqk, _, _, _, _⟩ :=
        execJobStepsFrom_append w run p1 (t :: p2) _ _ _ ctxk lastk hk
      rw [heqk] at hpre
      simp only [execJobStepsFrom] at hpre
      split at hpre <;> try (simp at hpre)
      rename_i ctx2 r hrun
      obtain ⟨sr2, heq2, hnil2, hcons2, hkeep2, _⟩ :=
        execJobStepsFrom_append w run p2 [] _ _ _ ctx1 last1 hpre
      have hsr : sr2 = sr1 := by
        by_cases hp2 : p2 = []
        · subst hp2
          obtain ⟨rfl, rfl⟩ := hnil2 rfl
          have h1 := hcons hp
          simp only [GoMap.get_set, if_true] at h1
          simpa [ObjectVal] using h1
        · have h1 := hcons hp
          have h2 := hcons2 hp2
          rw [h1] at h2
          simpa [ObjectVal] using h2.symm
      subst hsr
      have hnot : t.Name ∉ p2.map Step.Name := by
        have hnd : ((p1 ++ t :: p2).map Step.Name).Nodup := by
          have := hnames
          simp only [List.map_append, List.append_assoc] at this
          rw [← List.append_assoc, ← List.map_append] at this
          exact (List.nodup_append.1 this).1
        simp only [List.map_append, List.map_cons] at hnd
        exact (List.nodup_cons.1 (List.nodup_append.1 hnd).2.1).1
      refine ⟨ctxk, lastk, ctx2, r, hk, hrun, ?_⟩
      simp only [ObjectVal, CtyValue.getAttr]
      rw [hkeep2 t.Name hnot, GoMap.get_set]
      simp
  · intro stepVal t hstep ht
    by_cases hp : pre = []
    · obtain ⟨_, rfl⟩ := hnil hp
      rw [hfresh] at hstep
      exact absurd hstep (by simp)
    · rw [hcons hp] at hstep
      simp only [Option.some.injEq] at hstep
      subst hstep
      have hnot : t.Name ∉ pre.map Step.Name := by
        have := hnames
        simp only [List.map_append] at this
        have hdis := (List.nodup_append.1 this).2.2
        intro hin
        exact hdis hin (List.mem_map_of_mem _ ht)
      simp only [ObjectVal, CtyValue.getAttr]
      rw [hkeep t.Name hnot]
      rfl

/-- Witness of C2: in the job `main` of the example, the first step returns, and
in the context in which the second step `s2` is then evaluated the `step`
object has no field `s2`. -/
theorem execJobSteps_visibility_witness :
    ∃ jobCtx0 ctx1 last1,
      createJobContext exWorld exStepsDocument exStepsJob [] [] = .ret (.ok jobCtx0) ∧
      execJobSteps exWorld (Run exWorld exStepsApp 1)
        { Variables := GoMap.set jobCtx0.Variables "conf" (ObjectVal []) } []
        [{ Name := "s1", Run := some { Name := "one", Args := [] } }]
        = .ret (ctx1, last1, none) ∧
      (∃ stepVal, GoMap.get ctx1.Variables "step" = some stepVal ∧
        stepVal.getAttr "s1" = some (Result.toCty exWorld (some {}))) ∧
      (∀ stepVal t, GoMap.get ctx1.Variables "step" = some stepVal →
        t ∈ [({ Name := "s2", Run := some { Name := "two", Args := [] } } : Step)] →
        stepVal.getAttr t.Name = none) :=
  ⟨_, _, _, rfl, rfl, ⟨_, rfl, rfl⟩,
    (execJobSteps_visibility exWorld (Run exWorld exStepsApp 1) exStepsDocument exStepsJob
      [] [] _ (ObjectVal [])
      [{ Name := "s1", Run := some { Name := "one", Args := [] } }] []
      { Name := "s2", Run := some { Name := "two", Args := [] } } _ _
      rfl (by decide) rfl).2.2.2⟩

/-! ## C3: assertions of a job -/

/-- The loop over the assertions returns with the error of the first assertion
that does not hold. -/
theorem execAsserts_first_failure (w : World) (ctx : EvalContext) (pre post : List Assert)
    (a : Assert) (e : Err) (hpre : ∀ p ∈ pre, execAssert w ctx p = .ret none)
    (ha : execAssert w ctx a = .ret (some e)) :
    execAsserts w ctx (pre ++ a :: post) = .ret (some e) := by
  induction pre with
  | nil => simp [execAsserts, ha]
  | cons p rest ih =>
    have hp : execAssert w ctx p = .ret none := hpre p (by simp)
    simp only [List.cons_append, execAsserts, hp]
    exact ih (fun q hq => hpre q (by simp [hq]))

/-- An assertion whose condition is false and that is reported fails with the
assertion failure that carries its name. -/
theorem execAssert_false_error (w : World) (ctx : EvalContext) (a : Assert) (e : Err)
    (hfalse : DecodeExpression w a.Condition ctx .bool fromCtyBool = .ok false)
    (ha : execAssert w ctx a = .ret (some e)) :
    ∃ expr vars, e = .assertionFailed a.Name expr vars := by
  unfold execAssert at ha
  simp only [hfalse] at ha
  split at ha <;> try (simp at ha)
  split at ha <;> try (simp at ha)
  split at ha <;> try (simp at ha)
  exact ⟨_, _, ha.symm⟩

/-- C3 (amended): for a job that declares assertions and no steps, a run whose
context construction and config composition succeed evaluates the assertions
after the body, whatever the body is: an `exec` block whose command,
arguments and environment decode, a `run` block whose nested run returns, or
nothing. `ctxB` is the context after the body. If the assertions before `a`
hold and the condition of `a` is false and reported, `Run` returns the
failure of `a` as its error, with no result. -/
theorem Run_evaluates_asserts (w : World) (app : App) (fuel : Nat) (cmd : String)
    (args opts : GoMap GoValue) (tbl : GoMap JobSpec) (cc : HCL2Config) (j : JobSpec)
    (jobCtx : EvalContext) (conf : CtyValue) (ctxB : EvalContext)
    (pre post : List Assert) (a : Assert) (e : Err)
    (htbl : app.jobByName = some tbl)
    (hfind : GoMap.get tbl cmd = some j ∨ (GoMap.get tbl cmd = none ∧ GoMap.get tbl "" = some j))
    (hcc : app.Config = some cc)
    (hctx : createJobContext w cc j args opts = .ret (.ok jobCtx))
    (hconf : getConfigs w (Run w app fuel) jobCtx cc j = .ret (.ok conf))
    (hsteps : j.Steps = [])
    (hassert : j.Assert = pre ++ a :: post)
    (hbody :
      (∃ ex c as env, j.Exec = some ex ∧
        DecodeExpression w ex.Command ctxB .string fromCtyString = .ok c ∧
        DecodeExpression w ex.Args ctxB (.list .string) fromCtyStrings = .ok as ∧
        DecodeExpression w ex.Env ctxB (.map .string) fromCtyStringMap = .ok env ∧
        ctxB = { Variables := GoMap.set jobCtx.Variables "conf" conf }) ∨
      (∃ r res err, j.Exec = none ∧ j.Run = some r ∧
        execRun w (Run w app fuel) { Variables := GoMap.set jobCtx.Variables "conf" conf }
          (some r) = .ret (ctxB, res, err)) ∨
      (j.Exec = none ∧ j.Run = none ∧
        ctxB = { Variables := GoMap.set jobCtx.Variables "conf" conf }))
    (hpre : ∀ p ∈ pre, execAssert w ctxB p = .ret none)
    (hfalse : DecodeExpression w a.Condition ctxB .bool fromCtyBool = .ok false)
    (ha : execAssert w ctxB a = .ret (some e)) :
    Run w app (fuel + 1) cmd args opts = .ret (none, some e) ∧
      ∃ expr vars, e = .assertionFailed a.Name expr vars := by
  refine ⟨?_, execAssert_false_error w ctxB a e hfalse ha⟩
  have hall : execAsserts w ctxB j.Assert = .ret (some e) := by
    rw [hassert]; exact execAsserts_first_failure w ctxB pre post a e hpre ha
  have hjob : execJob w (Run w app fuel) j
      { Variables := GoMap.set jobCtx.Variables "conf" conf } = .ret (none, some e) := by
    rcases hbody with ⟨ex, c, as, env, hex, hc, has, henv, rfl⟩ | ⟨r, res, err, hex, hr, hrun⟩ |
      ⟨hex, hr, rfl⟩
    · simp only [execJob, hex, hc, has, henv, afterBody, hall]
    · simp only [execJob, hex, hr, hrun, afterBody, hall]
    · unfold execJob
      simp only [hex, hr]
      split
      · rename_i hnil
        rw [hassert] at hnil
        simp at hnil
      · simp only [hall]
  rcases hfind with h | ⟨h1, h2⟩
  · simp only [Run, RunWith, htbl, h, hcc, hctx, hconf, hsteps, execJobSteps,
      execJobStepsFrom, Option.isSome_none, Bool.or_self, Bool.false_eq_true, if_false]
    exact hjob
  · simp only [Run, RunWith, htbl, h1, h2, hcc, hctx, hconf, hsteps, execJobSteps,
      execJobStepsFrom, Option.isSome_none, Bool.or_self, Bool.false_eq_true, if_false]
    exact hjob

/-- Witness of C3 (amended): the job `check` of the example has no steps and no
body; its assertion `var.x == 2` is false for `var.x = 1`, and `Run` returns
the failure. -/
theorem Run_evaluates_asserts_witness :
    Run exWorld exAssertApp 1 "check" [] []
        = .ret (none, some (.assertionFailed "eq" "var.x == 2\n" ["var.x=1 (int)"])) ∧
      ∃ expr vars, Err.assertionFailed "eq" "var.x == 2\n" ["var.x=1 (int)"]
        = .assertionFailed "eq" expr vars :=
  Run_evaluates_asserts exWorld exAssertApp 0 "check" [] [] (jobTable exAssertDocument)
    exAssertDocument exAssertJob _ (ObjectVal []) _ [] [] { Name := "eq", Condition := exCond } _
    rfl (Or.inl rfl) rfl rfl rfl rfl rfl (Or.inr (Or.inr ⟨rfl, rfl, rfl⟩))
    (by simp) rfl rfl

/-- Counterexample to C3 as stated: the job `checked` declares the assertion
`var.x == 2`, false for its `var.x = 1`, and a step; its context and configs
are built, yet `Run` returns the result of the step and no error. -/
theorem Run_steps_skip_asserts_counterexample :
    exAssertStepsJob.Assert = [{ Name := "eq", Condition := exCond }] ∧
      (∃ jobCtx, createJobContext exWorld exAssertDocument exAssertStepsJob [] []
          = .ret (.ok jobCtx) ∧
        getConfigs exWorld (Run exWorld exAssertApp 1) jobCtx exAssertDocument exAssertStepsJob
          = .ret (.ok (ObjectVal [])) ∧
        DecodeExpression exWorld exCond jobCtx .bool fromCtyBool = .ok false) ∧
      Run exWorld exAssertApp 2 "checked" [] [] = .ret (some {}, none) :=
  ⟨rfl, ⟨_, rfl, rfl, rfl⟩, rfl⟩

/-! ## C4: missing values -/

theorem bindParameters_append (w : World) (jobName : String) (ctx : CtyValue)
    (givenParams : GoMap GoValue) (pre rest : List Parameter) (params params1 : GoMap CtyValue)
    (h : bindParameters w jobName ctx givenParams pre params = .ret (.ok params1)) :
    bindParameters w jobName ctx givenParams (pre ++ rest) params =
      bindParameters w jobName ctx givenParams rest params1 := by
  induction pre generalizing params with
  | nil =>
    simp only [bindParameters, Outcome.ret.injEq, Except.ok.injEq] at h
    subst h; rfl
  | cons p ps ih =>
    simp only [bindParameters] at h
    simp only [List.cons_append, bindParameters]
    split at h <;> try (simp at h)
    exact ih _ h

theorem bindOptions_append (w : World) (jobName : String) (ctx : CtyValue)
    (givenOpts : GoMap GoValue) (pre rest : List OptionSpec) (opts opts1 : GoMap CtyValue)
    (h : bindOptions w jobName ctx givenOpts pre opts = .ret (.ok opts1)) :
    bindOptions w jobName ctx givenOpts (pre ++ rest) opts =
      bindOptions w jobName ctx givenOpts rest opts1 := by
  induction pre generalizing opts with
  | nil =>
    simp only [bindOptions, Outcome.ret.injEq, Except.ok.injEq] at h
    subst h; rfl
  | cons p ps ih =>
    simp only [bindOptions] at h
    simp only [List.cons_append, bindOptions]
    split at h <;> try (simp at h)
    exact ih _ h

/-- A spec with a valid type, no default and no value is the error `missing`. -/
theorem bindSpec_missing (w : World) (jobName : String) (ctx : CtyValue)
    (typeExpr defaultExpr : Expression) (typeErr : CtyValue → CtyType → CtyType → Err)
    (missing : Err) (tpe : CtyType) (htype : typeExpr.TypeConstraint = .ok tpe)
    (hdefault : defaultExpr.Range.Start = defaultExpr.Range.End) :
    bindSpec w jobName ctx typeExpr defaultExpr .nil typeErr missing = .ret (.error missing) := by
  simp [bindSpec, htype, hdefault]

theorem contains_middle (a b c : String) : contains (a ++ b ++ c) b := by
  unfold contains
  simp only [String.data_append]
  exact ⟨a.data, c.data, rfl⟩

/-- A run of a job whose context cannot be built returns the error of the
context and no result. -/
theorem Run_context_error (w : World) (app : App) (fuel : Nat) (cmd : String)
    (args opts : GoMap GoValue) (tbl : GoMap JobSpec) (cc : HCL2Config) (j : JobSpec) (e : Err)
    (htbl : app.jobByName = some tbl)
    (hfind : GoMap.get tbl cmd = some j ∨ (GoMap.get tbl cmd = none ∧ GoMap.get tbl "" = some j))
    (hcc : app.Config = some cc)
    (hctx : createJobContext w cc j args opts = .ret (.error e)) :
    Run w app (fuel + 1) cmd args opts = .ret (none, some e) := by
  rcases hfind with h | ⟨h1, h2⟩
  · simp only [Run, RunWith, htbl, h, hcc, hctx]
  · simp only [Run, RunWith, htbl, h1, h2, hcc, hctx]

/-- C4 (amended): a parameter or option spec, of the root or of the job, whose
type expression is a valid type constraint and that has no default
expression (the range of the default is empty): when the caller's map holds
no value under its name and the specs before it bind, `createJobContext`
returns no context and the error of the missing value, and so does every
`Run` of an application that resolves the command to this job: it returns
no result and that error. The text of the error contains
`missing value for parameter ` resp. `missing value for option ` followed by
the name as the verb `%q` prints it (`w.quote`: between double quotes, escaped
where needed). For an option, the specs before it are all the parameter
specs and the option specs before it. -/
theorem createJobContext_missing_value (w : World) (cc : HCL2Config) (j : JobSpec)
    (givenParams givenOpts : GoMap GoValue) :
    (∀ (pre post : List Parameter) (p : Parameter) (params1 : GoMap CtyValue) (tpe : CtyType),
      cc.JobSpec.Parameters ++ j.Parameters = pre ++ p :: post →
      bindParameters w j.Name (getContext w j.SourceLocator) givenParams pre []
        = .ret (.ok params1) →
      p.Type_.TypeConstraint = .ok tpe →
      p.Default.Range.Start = p.Default.Range.End →
      given givenParams p.Name = .nil →
      createJobContext w cc j givenParams givenOpts
          = .ret (.error (.missingParameter j.Name p.Name)) ∧
        (∀ (app : App) (fuel : Nat) (cmd : String) (tbl : GoMap JobSpec),
          app.jobByName = some tbl →
          (GoMap.get tbl cmd = some j ∨ (GoMap.get tbl cmd = none ∧ GoMap.get tbl "" = some j)) →
          app.Config = some cc →
          Run w app (fuel + 1) cmd givenParams givenOpts
            = .ret (none, some (.missingParameter j.Name p.Name))) ∧
        contains ((Err.missingParameter j.Name p.Name).Error w)
          ("missing value for parameter " ++ w.quote p.Name)) ∧
    (∀ (pre post : List OptionSpec) (op : OptionSpec) (params opts1 : GoMap CtyValue)
        (tpe : CtyType),
      cc.JobSpec.Options ++ j.Options = pre ++ op :: post →
      bindParameters w j.Name (getContext w j.SourceLocator) givenParams
        (cc.JobSpec.Parameters ++ j.Parameters) [] = .ret (.ok params) →
      bindOptions w j.Name (getContext w j.SourceLocator) givenOpts pre []
        = .ret (.ok opts1) →
      op.Type_.TypeConstraint = .ok tpe →
      op.Default.Range.Start = op.Default.Range.End →
      given givenOpts op.Name = .nil →
      createJobContext w cc j givenParams givenOpts
          = .ret (.error (.missingOption j.Name op.Name)) ∧
        (∀ (app : App) (fuel : Nat) (cmd : String) (tbl : GoMap JobSpec),
          app.jobByName = some tbl →
          (GoMap.get tbl cmd = some j ∨ (GoMap.get tbl cmd = none ∧ GoMap.get tbl "" = some j)) →
          app.Config = some cc →
          Run w app (fuel + 1) cmd givenParams givenOpts
            = .ret (none, some (.missingOption j.Name op.Name))) ∧
        contains ((Err.missingOption j.Name op.Name).Error w)
          ("missing value for option " ++ w.quote op.Name)) := by
  constructor
  · intro pre post p params1 tpe hspecs hpre htype hdefault hgiven
    have hctx : createJobContext w cc j givenParams givenOpts
        = .ret (.error (.missingParameter j.Name p.Name)) := by
      unfold createJobContext
      simp only [hspecs, bindParameters_append w _ _ _ pre (p :: post) [] params1 hpre,
        bindParameters, hgiven, bindSpec_missing w _ _ _ _ _ _ tpe htype hdefault]
    refine ⟨hctx, ?_, ?_⟩
    · intro app fuel cmd tbl htbl hfind hcc
      exact Run_context_error w app fuel cmd _ _ tbl cc j _ htbl hfind hcc hctx
    · have : (Err.missingParameter j.Name p.Name).Error w
          = ("job " ++ w.quote j.Name ++ ": ") ++ ("missing value for parameter " ++ w.quote p.Name)
            ++ "" := by
        have e : ": missing value for parameter " = ": " ++ "missing value for parameter " := by decide
        simp only [Err.Error, e, String.append_assoc, String.append_empty]
      rw [this]
      exact contains_middle _ _ _
  · intro pre post op params opts1 tpe hspecs hparams hpre htype hdefault hgiven
    have hctx : createJobContext w cc j givenParams givenOpts
        = .ret (.error (.missingOption j.Name op.Name)) := by
      unfold createJobContext
      simp only [hparams, hspecs, bindOptions_append w _ _ _ pre (op :: post) [] opts1 hpre,
        bindOptions, hgiven, bindSpec_missing w _ _ _ _ _ _ tpe htype hdefault]
    refine ⟨hctx, ?_, ?_⟩
    · intro app fuel cmd tbl htbl hfind hcc
      exact Run_context_error w app fuel cmd _ _ tbl cc j _ htbl hfind hcc hctx
    · have : (Err.missingOption j.Name op.Name).Error w
          = ("job " ++ w.quote j.Name ++ ": ") ++ ("missing value for option " ++ w.quote op.Name)
            ++ "" := by
        have e : ": missing value for option " = ": " ++ "missing value for option " := by decide
        simp only [Err.Error, e, String.append_assoc, String.append_empty]
      rw [this]
      exact contains_middle _ _ _

/-- Witness of C4 (amended): the job `greet` of the example, run without values,
fails for its parameter `p`; run with a value for `p`, it fails for its
option `o`. The text of the second error is spelled out. -/
theorem createJobContext_missing_value_witness :
    (createJobContext exWorld (exDocument [exMissingJob]) exMissingJob [] []
        = .ret (.error (.missingParameter "greet" "p")) ∧
      Run exWorld exMissingApp 1 "greet" [] []
        = .ret (none, some (.missingParameter "greet" "p")) ∧
      contains ((Err.missingParameter "greet" "p").Error exWorld)
        ("missing value for parameter " ++ exWorld.quote "p")) ∧
    (createJobContext exWorld (exDocument [exMissingJob]) exMissingJob [("p", .string "x")] []
        = .ret (.error (.missingOption "greet" "o")) ∧
      Run exWorld exMissingApp 1 "greet" [("p", .string "x")] []
        = .ret (none, some (.missingOption "greet" "o")) ∧
      contains ((Err.missingOption "greet" "o").Error exWorld)
        ("missing value for option " ++ exWorld.quote "o")) ∧
    (Err.missingOption "greet" "o").Error exWorld
      = "job \"greet\": missing value for option \"o\"" :=
  have hp := (createJobContext_missing_value exWorld (exDocument [exMissingJob]) exMissingJob
      [] []).1
      [] [] { Name := "p", Type_ := typeExpr .string, Default := absentExpr } [] .string
      rfl rfl rfl rfl rfl
  have ho := (createJobContext_missing_value exWorld (exDocument [exMissingJob]) exMissingJob
      [("p", .string "x")] []).2
      [] [] { Name := "o", Type_ := typeExpr .string, Default := absentExpr } _ [] .string
      rfl rfl rfl rfl rfl rfl
  ⟨⟨hp.1, hp.2.1 exMissingApp 0 "greet" _ rfl (Or.inl rfl) rfl, hp.2.2⟩,
    ⟨ho.1, ho.2.1 exMissingApp 0 "greet" _ rfl (Or.inl rfl) rfl, ho.2.2⟩, by decide⟩

/-- Counterexample to C4 as stated: the parameter `p` has no default and no
value, and no spec comes before it, yet the error of `createJobContext` is the
diagnostic of its type expression and does not say `missing value`. -/
theorem createJobContext_invalid_type_counterexample :
    exBadTypeJob.Parameters.map (fun p => decide (p.Default.Range.Start = p.Default.Range.End))
        = [true] ∧
      createJobContext exWorld (exDocument [exBadTypeJob]) exBadTypeJob [] []
        = .ret (.error (.diagnostics ["Invalid type specification"])) ∧
      ¬ contains ((Err.diagnostics ["Invalid type specification"]).Error exWorld)
        ("missing value for parameter " ++ exWorld.quote "p") := by
  refine ⟨rfl, rfl, ?_⟩
  unfold contains
  decide

/-! ## Types -/

/-- No type but the zero type equals the zero type. -/
theorem CtyType.beq_nil_right (a : CtyType) (h : a ≠ .nil) : CtyType.beq a .nil = false := by
  cases a <;> simp [CtyType.beq] at h ⊢

/-! ## C5, C6, C7: declared types -/

/-- Decoding an expression into a `cty.Value` gives the value of the expression
when the evaluation has no diagnostics. -/
theorem DecodeExpression_value (w : World) (expr : Expression) (ctx : EvalContext)
    (v : CtyValue) (h : expr.Value (some ctx) = (v, [])) :
    DecodeExpression w expr ctx .dynamic fromCtyValue = .ok v := by
  unfold DecodeExpression Convert
  rw [h]
  by_cases hb : CtyType.beq v.type .dynamic = true <;> simp [hb, fromCtyValue]

/-- After the variables of a prefix are bound, the loop goes on with the rest
from the fields bound so far. -/
theorem getVarialblesFrom_append (w : World) (varCtx : EvalContext) (pre rest : List Variable)
    (fields fields1 : GoMap CtyValue)
    (h : getVarialblesFrom w varCtx pre fields = .ret (ObjectVal fields1, none)) :
    getVarialblesFrom w varCtx (pre ++ rest) fields = getVarialblesFrom w varCtx rest fields1 := by
  induction pre generalizing fields with
  | nil =>
    simp only [getVarialblesFrom, Outcome.ret.injEq, Prod.mk.injEq, and_true, ObjectVal,
      CtyValue.object.injEq] at h
    subst h; rfl
  | cons x xs ih =>
    simp only [getVarialblesFrom] at h
    simp only [List.cons_append, getVarialblesFrom]
    split at h <;> try (simp at h)
    exact ih _ h

/-- C6 (amended): a variable spec that declares a type `tpe`, after the variables
`pre` are bound to `fields1`, with a value expression that evaluates to `v`.
When `tpe` is not list of string and the type of `v` differs from it, as
`Type.Equals` decides (for object types without regard to the order of the
attributes), `getVarialbles` returns the type-mismatch error together with
the object of the fields bound before, so that the variable is not bound.
When `tpe` is list of string, the value is converted to a list of string
instead: a value of another type that converts (a tuple of strings, say) is
decoded into a string slice `ss` and bound as the list of that slice (the
null list for the nil slice), and no mismatch is reported. -/
theorem getVarialbles_type_mismatch (w : World) (varCtx : EvalContext)
    (pre post : List Variable) (varSpec : Variable) (fields1 : GoMap CtyValue)
    (tpe : CtyType) (v : CtyValue)
    (hpre : getVarialbles w varCtx pre = .ret (ObjectVal fields1, none))
    (hdeclared : (varSpec.Type_.Value none).1.IsNull = false)
    (htype : varSpec.Type_.TypeConstraint = .ok tpe)
    (hreal : tpe ≠ .nil)
    (hval : varSpec.Value.Value (some varCtx) = (v, [])) :
    (tpe ≠ .list .string → CtyType.beq v.type tpe = false →
      getVarialbles w varCtx (pre ++ varSpec :: post)
        = .ret (ObjectVal fields1,
            some (.variableType (tpe.friendly true) (v.type.friendly false)))) ∧
    (tpe = .list .string → ∀ v2 ss, Convert w v (.list .string) = .ok v2 →
      fromCtyStrings v2 = .ok ss →
      getVarialbles w varCtx (pre ++ [varSpec])
        = .ret (ObjectVal (GoMap.set fields1 varSpec.Name
            (match ss with
              | none => .null (.list .string)
              | some l => .list .string (l.map (StringVal w)))), none)) := by
  unfold getVarialbles at hpre ⊢
  constructor
  · intro hnl hne
    have hsl : tpe.isStringList = false := by
      cases tpe <;> simp [CtyType.isStringList] at hnl ⊢
    have hname : tpe.FriendlyNameForConstraint = .ret (tpe.friendly true) := by
      cases tpe <;> simp [CtyType.FriendlyNameForConstraint] at hreal ⊢
    rw [getVarialblesFrom_append w varCtx pre _ [] fields1 hpre]
    simp [getVarialblesFrom, bindVariable, hdeclared, htype, hsl,
      DecodeExpression_value w _ _ v hval, hne, hname]
  · intro hl v2 ss hconv hstore
    subst hl
    rw [getVarialblesFrom_append w varCtx pre _ [] fields1 hpre]
    have hdec : DecodeExpression w varSpec.Value varCtx (.list .string) fromCtyStrings
        = .ok ss := by
      unfold DecodeExpression
      rw [hval]
      simp [hconv, hstore]
    cases ss <;>
      simp [getVarialblesFrom, bindVariable, hdeclared, htype, CtyType.isStringList, hdec,
        ImpliedType, CtyType.goEq, ToCtyValue]

/-- Witness of C6 (amended): the variable `n` is declared a number and its value
is a string; `getVarialbles` returns the mismatch and binds nothing. -/
theorem getVarialbles_type_mismatch_witness :
    getVarialbles exWorld { Variables := [] } ([] ++ exTypedVar :: [])
      = .ret (ObjectVal [], some (.variableType "number" "string")) :=
  (getVarialbles_type_mismatch exWorld { Variables := [] } [] [] exTypedVar [] .number
    (.string "a") rfl rfl rfl (by simp) rfl).1 (by simp) rfl

/-- Counterexample to C6 as stated: the variable `xs` is declared a list of
string and its value, the tuple literal `["a"]`, has another type; yet
`getVarialbles` returns no error and binds `var.xs`. -/
theorem getVarialbles_string_list_counterexample :
    exListVar.Type_.TypeConstraint = .ok (.list .string) ∧
      (exListVar.Value.Value (some { Variables := [] })).1.type = .tuple [.string] ∧
      CtyType.beq (.tuple [.string]) (.list .string) = false ∧
      getVarialbles exWorld { Variables := [] } [exListVar]
        = .ret (ObjectVal [("xs", .list .string [.string "a"])], none) :=
  ⟨rfl, rfl, rfl, rfl⟩

/-- C7 (the code at the failing input): for a variable spec that declares no
type, the type to compare with stays the zero type; the type of the value is
never equal to it, and building the error message dereferences the zero type.
`getVarialbles` panics instead of binding the variable. -/
theorem getVarialbles_untyped_panics (w : World) (varCtx : EvalContext) (varSpec : Variable)
    (rest : List Variable) (v : CtyValue)
    (hnull : (varSpec.Type_.Value none).1.IsNull = true)
    (hval : varSpec.Value.Value (some varCtx) = (v, []))
    (hty : v.type ≠ .nil) :
    getVarialbles w varCtx (varSpec :: rest)
      = .panic "invalid memory address or nil pointer dereference" := by
  simp [getVarialbles, getVarialblesFrom, bindVariable, hnull, CtyType.isStringList,
    DecodeExpression_value w _ _ v hval, CtyType.beq_nil_right _ hty,
    CtyType.FriendlyNameForConstraint]

/-- Witness of C7: the variable `x` of the example, with the value `"a"` and no
type. -/
theorem getVarialbles_untyped_panics_witness :
    getVarialbles exWorld { Variables := [] } [exUntypedVar]
      = .panic "invalid memory address or nil pointer dereference" :=
  getVarialbles_untyped_panics exWorld { Variables := [] } exUntypedVar [] (.string "a")
    rfl rfl (by simp [CtyValue.type])

/-- C5 (the code at the failing input): the default of the parameter `p` has
exactly the declared type, an object type, and `createJobContext` panics on
the comparison of the two types instead of binding `param.p`. -/
theorem createJobContext_object_default_panics :
    CtyType.beq (CtyValue.object [("a", .string "x")]).type (.object [("a", .string)]) = true ∧
      createJobContext exWorld (exDocument [exObjectParamJob]) exObjectParamJob [] []
        = .panic "comparing uncomparable type" :=
  ⟨rfl, rfl⟩

/-! ## C8, C9, C10: loader, assertion report, value bridge -/

theorem jobTable_foldl_keeps (jobs : List JobSpec) (acc : GoMap JobSpec) (k : String)
    (h : ∀ j ∈ jobs, j.Name ≠ k) :
    GoMap.get (jobs.foldl (fun jobByName j => GoMap.set jobByName j.Name j) acc) k
      = GoMap.get acc k := by
  induction jobs generalizing acc with
  | nil => rfl
  | cons j rest ih =>
    simp only [List.foldl_cons]
    rw [ih _ (fun j2 h2 => h j2 (by simp [h2])), GoMap.get_set]
    have : j.Name ≠ k := h j (by simp)
    simp [this]

/-- C8 (amended): when two job blocks of a document carry the same name (not the
empty name of the root job) and the document parses and decodes, `New` returns
an application and no error; its job table holds, under that name, the last
job block of that name. -/
theorem New_duplicate_jobs (l : Loader) (dir : String) (files : List String)
    (cc : HCL2Config) (pre mid post : List JobSpec) (j1 j2 : JobSpec)
    (hfind : l.FindHCLFiles dir = .ok files)
    (hparse : (files.map l.parse).flatten = [])
    (hdecode : l.decode files = (cc, []))
    (hjobs : cc.Jobs = pre ++ j1 :: (mid ++ j2 :: post))
    (hsame : j1.Name = j2.Name)
    (hroot : j2.Name ≠ "")
    (hlast : ∀ j ∈ post, j.Name ≠ j2.Name) :
    ∃ tbl, New l dir = (some { Config := some cc, jobByName := some tbl }, none) ∧
      GoMap.get tbl j1.Name = some j2 := by
  refine ⟨jobTable cc, ?_, ?_⟩
  · simp [New, hfind, hparse, hdecode]
  · rw [hsame]
    unfold jobTable
    rw [GoMap.get_set, hjobs]
    have : pre ++ j1 :: (mid ++ j2 :: post) = (pre ++ j1 :: mid) ++ j2 :: post := by simp
    rw [this, List.foldl_append, List.foldl_cons, jobTable_foldl_keeps post _ _ hlast,
      GoMap.get_set]
    simp [Ne.symm hroot]

/-- Witness of C8 (amended): the document of the example with two jobs `dup`. -/
theorem New_duplicate_jobs_witness :
    ∃ tbl, New (exLoader exDupDocument) "."
        = (some { Config := some exDupDocument, jobByName := some tbl }, none) ∧
      GoMap.get tbl (emptyJob "dup").Name
        = some { emptyJob "dup" with
            Steps := [{ Name := "s1", Run := some { Name := "one", Args := [] } }] } :=
  New_duplicate_jobs (exLoader exDupDocument) "." ["main.hcl"] exDupDocument [] [] []
    (emptyJob "dup") _ rfl rfl rfl rfl rfl (by decide) (by simp)

/-- Counterexample to C8 as stated: the document has two job blocks named
`dup`, and `New` returns no error but an application whose job table holds
the second of them. -/
theorem New_duplicate_jobs_counterexample :
    exDupDocument.Jobs.map JobSpec.Name = ["dup", "dup"] ∧
      (New (exLoader exDupDocument) ".").2 = none ∧
      ((New (exLoader exDupDocument) ".").1.bind App.jobByName).map
          (fun tbl => (GoMap.get tbl "dup").map (fun j => j.Steps.map Step.Name))
        = some (some ["s1"]) := by
  refine ⟨rfl, rfl, rfl⟩

/-- C10 (amended): for every native value that is a string, an `int` or a
boolean, converting it to a typed value at its implied type and back with
`ctyToGo` succeeds. A string comes back in its Unicode normal form NFC, in
which `cty.StringVal` stores it; so the round trip yields the value itself for
an `int`, a boolean and a string that is in normal form. -/
theorem valueBridge_roundtrip (w : World) (v : GoValue)
    (hkind : (∃ s, v = .string s) ∨ (∃ i, v = .int i) ∨ (∃ b, v = .bool b))
    (hwf : v.wf) :
    ∃ ty val, ImpliedType v = some ty ∧ ToCtyValue w v ty = .ok val ∧
      (∀ s, v = .string s → ctyToGo val = .ok (.string (w.nfc s))) ∧
      ((∀ s, v = .string s → w.nfc s = s) → ctyToGo val = .ok v) := by
  rcases hkind with ⟨s, rfl⟩ | ⟨i, rfl⟩ | ⟨b, rfl⟩
  · refine ⟨.string, .string (w.nfc s), rfl, rfl, ?_, ?_⟩
    · intro s2 h2
      simp only [GoValue.string.injEq] at h2
      subst h2
      rfl
    · intro h
      have hs := h s rfl
      simp [ctyToGo, CtyValue.type, fromCtyString, hs]
  · refine ⟨.number, .number i, rfl, rfl, ?_, ?_⟩
    · intro s2 h2
      simp at h2
    · intro _
      simp only [GoValue.wf] at hwf
      simp [ctyToGo, CtyValue.type, fromCtyInt, hwf.1, hwf.2]
  · refine ⟨.bool, .bool b, rfl, rfl, ?_, ?_⟩
    · intro s2 h2
      simp at h2
    · intro _
      rfl

/-- Witness of C10 (amended): the string `abc`, which is in normal form. -/
theorem valueBridge_roundtrip_witness :
    ∃ ty val, ImpliedType (.string "abc") = some ty ∧
      ToCtyValue exWorld (.string "abc") ty = .ok val ∧
      (∀ s, GoValue.string "abc" = .string s → ctyToGo val = .ok (.string (exWorld.nfc s))) ∧
      ((∀ s, GoValue.string "abc" = .string s → exWorld.nfc s = s) →
        ctyToGo val = .ok (.string "abc")) :=
  valueBridge_roundtrip exWorld (.string "abc") (Or.inl ⟨"abc", rfl⟩) (by simp [GoValue.wf])

/-- Counterexample to C10 as stated: the native number 2.5 (a `float64`) becomes
the typed number 2.5, which `ctyToGo` refuses, a whole number being required;
and the string `e` followed by the combining acute accent (two characters)
comes back as the one character `é`. -/
theorem valueBridge_float_counterexample :
    (ImpliedType (.float64 (5 / 2)) = some .number ∧
      ToCtyValue exWorld (.float64 (5 / 2)) .number = .ok (.number (5 / 2)) ∧
      ctyToGo (.number (5 / 2)) = .error (.library "value must be a whole number")) ∧
    (ImpliedType (.string "e\u0301") = some .string ∧
      ToCtyValue exWorld (.string "e\u0301") .string = .ok (.string "\u00e9") ∧
      ctyToGo (.string "\u00e9") = .ok (.string "\u00e9") ∧
      GoValue.string "\u00e9" ≠ .string "e\u0301") := by
  have h : ((5 : ℚ) / 2).den = 2 := by norm_num
  refine ⟨⟨rfl, rfl, ?_⟩, rfl, rfl, rfl, by decide⟩
  simp [ctyToGo, CtyValue.type, fromCtyInt, h]

theorem ctyToGo_bridged (v : CtyValue) (h : v.bridged) : ∃ g, ctyToGo v = .ok g := by
  rcases h with ⟨s, rfl⟩ | ⟨i, h1, h2, rfl⟩ | ⟨b, rfl⟩
  · exact ⟨_, rfl⟩
  · exact ⟨.int i, by simp [ctyToGo, CtyValue.type, fromCtyInt, h1, h2]⟩
  · exact ⟨_, rfl⟩

theorem sliceBytes_some (w : World) (b : String) (lo hi : Nat)
    (h : lo ≤ hi ∧ hi ≤ b.utf8ByteSize) : ∃ raw, sliceBytes w b lo hi = some raw := by
  unfold sliceBytes
  rw [if_pos h]
  split
  · exact ⟨_, rfl⟩
  · split
    · exact ⟨_, rfl⟩
    · exact ⟨_, rfl⟩

/-- The loop over the traversals appends the entry of each traversal that
resolves, in order. -/
theorem assertVars_eq (w : World) (ctx : EvalContext) (b : String) (ts : List Traversal)
    (vars : List String)
    (h : ∀ t ∈ ts, ∀ v, t.TraverseAbs ctx = .ok v → v.bridged ∧
      t.SourceRange.Start.Byte ≤ t.SourceRange.End.Byte ∧
      t.SourceRange.End.Byte ≤ b.utf8ByteSize) :
    assertVars w ctx b ts vars = .ret (vars ++ ts.filterMap (bindingOf w ctx b)) := by
  induction ts generalizing vars with
  | nil => simp [assertVars]
  | cons t rest ih =>
    have hrest := fun vars2 => ih vars2 (fun t2 h2 => h t2 (by simp [h2]))
    cases hres : t.TraverseAbs ctx with
    | error ds => simp [assertVars, bindingOf, hres, hrest]
    | ok v =>
      obtain ⟨hb, hr⟩ := h t (by simp) v hres
      obtain ⟨g, hg⟩ := ctyToGo_bridged v hb
      obtain ⟨raw, hraw⟩ := sliceBytes_some w b _ _ hr
      simp [assertVars, bindingOf, hres, hg, hraw, hrest]

/-- C9 (amended): for an assertion whose condition evaluates to false, when the
source file is read, the byte ranges of the condition and of its traversals
lie within the bytes of the file (its UTF-8 encoding) and every traversal that
resolves does so to a string, a whole number in the range of `int` or a
boolean, `execAssert` returns the assertion failure whose binding list has one
entry `<source text>=<value> (<type>)` for each traversal that resolves, in
traversal order, and none for a traversal that does not resolve. The source
text is the bytes of the traversal's range, without the white space around. -/
theorem execAssert_reports (w : World) (ctx : EvalContext) (a : Assert) (b : String)
    (hfalse : DecodeExpression w a.Condition ctx .bool fromCtyBool = .ok false)
    (hfile : w.readFile a.Condition.Range.Filename = .ok b)
    (hexpr : a.Condition.Range.Start.Byte ≤ a.Condition.Range.End.Byte + 1 ∧
      a.Condition.Range.End.Byte + 1 ≤ b.utf8ByteSize)
    (hvars : ∀ t ∈ a.Condition.Variables, ∀ v, t.TraverseAbs ctx = .ok v → v.bridged ∧
      t.SourceRange.Start.Byte ≤ t.SourceRange.End.Byte ∧
      t.SourceRange.End.Byte ≤ b.utf8ByteSize) :
    (∃ expr, execAssert w ctx a = .ret (some (.assertionFailed a.Name expr
        (a.Condition.Variables.filterMap (bindingOf w ctx b))))) ∧
    (∀ t ∈ a.Condition.Variables,
      (∀ ds, t.TraverseAbs ctx = .error ds → bindingOf w ctx b t = none) ∧
      (∀ v, t.TraverseAbs ctx = .ok v → ∃ g raw, ctyToGo v = .ok g ∧
        sliceBytes w b t.SourceRange.Start.Byte t.SourceRange.End.Byte = some raw ∧
        bindingOf w ctx b t
          = some (TrimSpace raw ++ "=" ++ g.fmtV ++ " (" ++ g.fmtT ++ ")"))) := by
  constructor
  · obtain ⟨expr, hexpr2⟩ := sliceBytes_some w b _ _ hexpr
    refine ⟨expr, ?_⟩
    simp [execAssert, hfalse, hfile, hexpr2, assertVars_eq w ctx b _ [] hvars]
  · intro t ht
    constructor
    · intro ds hds
      simp [bindingOf, hds]
    · intro v hv
      obtain ⟨hb, hr⟩ := hvars t ht v hv
      obtain ⟨g, hg⟩ := ctyToGo_bridged v hb
      obtain ⟨raw, hraw⟩ := sliceBytes_some w b _ _ hr
      exact ⟨g, raw, hg, hraw, by simp [bindingOf, hv, hg, hraw, binding]⟩

/-- Witness of C9 (amended): the assertion `var.x == 2` on the second line of
`note.hcl`, behind a character of two bytes, in a context with `var.x = 1`:
the entry of the binding list is cut out at the byte offsets 5 to 10. -/
theorem execAssert_reports_witness :
    (∃ expr, execAssert exWorld { Variables := [("var", ObjectVal [("x", .number 1)])] }
        { Name := "eq", Condition := exNoteCond }
      = .ret (some (.assertionFailed "eq" expr
          ([exNoteVarX].filterMap
            (bindingOf exWorld { Variables := [("var", ObjectVal [("x", .number 1)])] }
              "# \u00e9\nvar.x == 2\n"))))) ∧
      [exNoteVarX].filterMap
          (bindingOf exWorld { Variables := [("var", ObjectVal [("x", .number 1)])] }
            "# \u00e9\nvar.x == 2\n")
        = ["var.x=1 (int)"] ∧
      sliceBytes exWorld "# \u00e9\nvar.x == 2\n" 5 16 = some "var.x == 2\n" :=
  ⟨(execAssert_reports exWorld { Variables := [("var", ObjectVal [("x", .number 1)])] }
      { Name := "eq", Condition := exNoteCond } "# \u00e9\nvar.x == 2\n" rfl rfl (by decide)
      (by
        intro t ht v hv
        simp only [exNoteCond, List.mem_singleton] at ht
        subst ht
        simp only [exNoteVarX, exVarX, GoMap.get, ObjectVal, CtyValue.getAttr, if_true,
          Except.ok.injEq] at hv
        subst hv
        refine ⟨Or.inr (Or.inl ⟨1, by decide, by decide, by simp⟩), by decide⟩)).1,
    rfl, rfl⟩

/-- Counterexample to C9 as stated: the condition is false and its traversal
`var.xs` resolves, to a list; `execAssert` panics instead of returning the
failure with an entry for `var.xs`. -/
theorem execAssert_list_counterexample :
    DecodeExpression exWorld exListCond exListCtx .bool fromCtyBool = .ok false ∧
      exVarXs.TraverseAbs exListCtx = .ok (.list .string [.string "a"]) ∧
      execAssert exWorld exListCtx { Name := "len", Condition := exListCond }
        = .panic "handler for type list of string not implemneted yet" :=
  ⟨rfl, rfl, rfl⟩

/-! ## C5: the binder outside the defect -/

/-- The types implied by native values are compared without panic: Go's `==`
agrees with `Equals` on them. -/
theorem goEq_implied (v : GoValue) (vty tpe : CtyType) (h : ImpliedType v = some vty) :
    CtyType.goEq vty tpe = some (CtyType.beq vty tpe) := by
  cases v <;> simp only [ImpliedType, Option.some.injEq] at h <;> try (exact absurd h (by simp))
  all_goals subst h
  all_goals cases tpe <;> try rfl
  rename_i e
  cases e <;> rfl

/-- A type implied by a native value equals no type but itself. -/
theorem beq_implied_of_ne (v : GoValue) (vty tpe : CtyType) (h : ImpliedType v = some vty)
    (hne : vty ≠ tpe) : CtyType.beq vty tpe = false := by
  cases v <;> simp only [ImpliedType, Option.some.injEq] at h <;> try (exact absurd h (by simp))
  all_goals subst h
  all_goals cases tpe <;> simp [CtyType.beq] at hne ⊢
  rename_i e
  cases e <;> simp [CtyType.beq] at hne ⊢

/-- The caller's side of C5: a value the caller supplies is bound, converted to
the declared type, when its implied type is the declared type, and is the
error `unexpected type of option` when the two types differ. -/
theorem bindSpec_given_value (w : World) (jobName : String) (ctx : CtyValue)
    (typeExpr defaultExpr : Expression) (v : GoValue)
    (typeErr : CtyValue → CtyType → CtyType → Err) (missing : Err) (tpe vty : CtyType)
    (htype : typeExpr.TypeConstraint = .ok tpe) (hv : ImpliedType v = some vty) :
    (vty = tpe → ∃ val, ToCtyValue w v tpe = .ok val ∧ val.type = tpe ∧
      bindSpec w jobName ctx typeExpr defaultExpr v typeErr missing = .ret (.ok val)) ∧
    (vty ≠ tpe →
      bindSpec w jobName ctx typeExpr defaultExpr v typeErr missing
        = .ret (.error (.givenType jobName tpe vty))) := by
  have hgo := goEq_implied v vty tpe hv
  constructor
  · intro heq
    subst heq
    cases v <;> simp only [ImpliedType, Option.some.injEq] at hv <;>
      try (exact absurd hv (by simp))
    all_goals subst hv
    case strings ss =>
      cases ss <;>
        exact ⟨_, rfl, by simp [CtyValue.type],
          by simp [bindSpec, htype, ImpliedType, CtyType.goEq, ToCtyValue]⟩
    all_goals
      refine ⟨_, rfl, ?_, ?_⟩
      · simp [CtyValue.type, StringVal]
      · simp [bindSpec, htype, ImpliedType, CtyType.goEq, ToCtyValue]
  · intro hne
    rw [beq_implied_of_ne v vty tpe hv hne] at hgo
    cases v <;> simp only [ImpliedType, Option.some.injEq] at hv <;>
      try (exact absurd hv (by simp))
    all_goals subst hv
    all_goals simp [bindSpec, htype, ImpliedType, hgo]

/-- The default's side of C5: a default that evaluates to `vv` is bound when
Go's comparison finds its type equal to the declared type, is the type error
when the comparison finds them different, and is a panic when the two types
cannot be compared (two object types, two tuple types). -/
theorem bindSpec_default_value (w : World) (jobName : String) (ctx : CtyValue)
    (typeExpr defaultExpr : Expression)
    (typeErr : CtyValue → CtyType → CtyType → Err) (missing : Err) (tpe : CtyType)
    (vv : CtyValue) (htype : typeExpr.TypeConstraint = .ok tpe)
    (hdefault : defaultExpr.Range.Start ≠ defaultExpr.Range.End)
    (hval : defaultExpr.Value (some { Variables := [("context", ctx)] }) = (vv, [])) :
    bindSpec w jobName ctx typeExpr defaultExpr .nil typeErr missing =
      match CtyType.goEq vv.type tpe with
      | none => .panic "comparing uncomparable type"
      | some false => .ret (.error (typeErr vv tpe vv.type))
      | some true => .ret (.ok vv) := by
  simp only [bindSpec, htype, hdefault, ne_eq, not_false_eq_true, if_true,
    DecodeExpression_value w _ _ vv hval]

/-! ## C11: passing test cases -/

/-- An assertion whose condition evaluates to true passes. -/
theorem execAssert_true (w : World) (ctx : EvalContext) (a : Assert)
    (h : DecodeExpression w a.Condition ctx .bool fromCtyBool = .ok true) :
    execAssert w ctx a = .ret none := by
  simp [execAssert, h]

/-- When every assertion holds, the loop adds one `PASS` line per assertion, in
order. -/
theorem testAsserts_pass (w : World) (ctx : EvalContext) (c : Case) (asserts : List Assert)
    (lines : List String)
    (h : ∀ a ∈ asserts, DecodeExpression w a.Condition ctx .bool fromCtyBool = .ok true) :
    testAsserts w ctx c asserts lines
      = .ret (.ok (lines ++ asserts.map (fun a => "PASS: " ++ a.Name))) := by
  induction asserts generalizing lines with
  | nil => simp [testAsserts]
  | cons a rest ih =>
    have ha := execAssert_true w ctx a (h a (by simp))
    simp only [testAsserts, ha]
    rw [ih _ (fun b hb => h b (by simp [hb]))]
    simp

/-- C11: for a test with a non-empty assert list and a case of it whose context
is built (the variables of the test resolve to `vars`, the arguments of the
case decode to `caseFields`) and whose run returns, with whatever result `res`
and error `err`: if the condition of every assertion evaluates to true in the
context `ctx3` the run leaves, `execTestCase` returns no error and the result
whose stdout is the lines `PASS: <assertion name>`, one per assertion in
declaration order, joined by newlines. -/
theorem execTestCase_pass (w : World) (run : Runner) (t : Test) (c : Case)
    (vars : CtyValue) (caseFields : GoMap CtyValue) (ctx3 : EvalContext)
    (res : Option Result) (err : Option Err)
    (hassert : t.Assert ≠ [])
    (hvars : getVarialbles w { Variables := [("context", getContext w t.SourceLocator)] }
      t.Variables = .ret (vars, none))
    (hcase : caseArgs w
      { Variables := GoMap.set [("context", getContext w t.SourceLocator)] "var" vars }
      c.Args [] = .ok caseFields)
    (hrun : execRun w run
      { Variables := GoMap.set
          (GoMap.set [("context", getContext w t.SourceLocator)] "var" vars)
          "case" (ObjectVal caseFields) }
      (some t.Run) = .ret (ctx3, res, err))
    (htrue : ∀ a ∈ t.Assert,
      DecodeExpression w a.Condition ctx3 .bool fromCtyBool = .ok true) :
    execTestCase w run t c
      = .ret (some { Stdout := "\n".intercalate (t.Assert.map (fun a => "PASS: " ++ a.Name)) },
          none) := by
  unfold execTestCase
  simp only [hvars, hcase, hrun]
  cases hA : t.Assert with
  | nil => exact absurd hA hassert
  | cons a rest =>
    simp only
    rw [← hA, testAsserts_pass w ctx3 c t.Assert [] htrue]
    simp

/-- Witness of C11: the test `greets` of the example. Its run returns the error
of the missing parameter and no result; both assertions hold, and the case
passes with the two `PASS` lines. -/
theorem execTestCase_pass_witness :
    (∃ ctx3 err, execRun exWorld (Run exWorld exTestApp 1)
        { Variables := GoMap.set
            (GoMap.set [("context", getContext exWorld exTest.SourceLocator)] "var"
              (ObjectVal []))
            "case" (ObjectVal []) }
        (some exTest.Run) = .ret (ctx3, none, some err)) ∧
      execTestCase exWorld (Run exWorld exTestApp 1) exTest { Name := "", Args := [] }
        = .ret (some { Stdout := "PASS: first\nPASS: second" }, none) :=
  ⟨⟨_, _, rfl⟩,
    execTestCase_pass exWorld (Run exWorld exTestApp 1) exTest { Name := "", Args := [] }
      (ObjectVal []) [] _ none _ (by simp [exTest]) rfl rfl rfl
      (by
        intro a ha
        simp only [exTest, List.mem_cons, List.mem_singleton, List.not_mem_nil, or_false] at ha
        rcases ha with rfl | rfl <;> rfl)⟩

/-! ## C12: a result or an error -/

/-- The end of `execJob` never gives a nil result together with a nil error. -/
theorem afterBody_result_or_error (w : World) (j : JobSpec) (ctx : EvalContext)
    (res0 : Option Result) (err0 : Option Err) (res : Option Result) (err : Option Err)
    (h : afterBody w j ctx res0 err0 = .ret (res, err)) :
    res.isSome = true ∨ err.isSome = true := by
  unfold afterBody at h
  split at h <;> try (simp at h; done)
  · simp only [Outcome.ret.injEq, Prod.mk.injEq] at h
    right; rw [← h.2]; rfl
  · split at h
    · simp only [Outcome.ret.injEq, Prod.mk.injEq] at h
      left; rw [← h.1]; rfl
    · rename_i hnot
      simp only [Outcome.ret.injEq, Prod.mk.injEq] at h
      obtain ⟨rfl, rfl⟩ := h
      cases res0 with
      | some r => left; rfl
      | none =>
        cases err0 with
        | some e => right; rfl
        | none => exact absurd rfl (hnot rfl)

/-- `execJob` never returns a nil result together with a nil error, whatever the
nested runner returns. -/
theorem execJob_result_or_error (w : World) (run : Runner) (j : JobSpec) (ctx : EvalContext)
    (res : Option Result) (err : Option Err)
    (h : execJob w run j ctx = .ret (res, err)) :
    res.isSome = true ∨ err.isSome = true := by
  unfold execJob at h
  split at h
  · split at h
    · simp only [Outcome.ret.injEq, Prod.mk.injEq] at h
      right; rw [← h.2]; rfl
    · split at h
      · simp only [Outcome.ret.injEq, Prod.mk.injEq] at h
        right; rw [← h.2]; rfl
      · split at h
        · simp only [Outcome.ret.injEq, Prod.mk.injEq] at h
          right; rw [← h.2]; rfl
        · split at h
          exact afterBody_result_or_error w j ctx _ _ res err h
  · split at h
    · split at h <;> try (simp at h)
      exact afterBody_result_or_error w j _ _ _ res err h
    · split at h
      · exact afterBody_result_or_error w j ctx _ _ res err h
      · split at h <;> try (simp at h; done)
        · simp only [Outcome.ret.injEq, Prod.mk.injEq] at h
          right; rw [← h.2]; rfl
        · simp only [Outcome.ret.injEq, Prod.mk.injEq] at h
          left; rw [← h.1]; rfl

/-- The body of `Run` never returns a nil result together with a nil error,
whatever the nested runner returns. -/
theorem RunWith_result_or_error (w : World) (app : App) (run : Runner) (cmd : String)
    (args opts : GoMap GoValue) (res : Option Result) (err : Option Err)
    (h : RunWith w app run cmd args opts = .ret (res, err)) :
    res.isSome = true ∨ err.isSome = true := by
  unfold RunWith at h
  simp only at h
  split at h <;> try (simp at h; done)
  split at h <;> try (simp at h; done)
  split at h <;> try (simp at h; done)
  · simp only [Outcome.ret.injEq, Prod.mk.injEq] at h
    right; rw [← h.2]; rfl
  · split at h <;> try (simp at h; done)
    · simp only [Outcome.ret.injEq, Prod.mk.injEq] at h
      right; rw [← h.2]; rfl
    · split at h <;> try (simp at h; done)
      split at h
      · rename_i hsome
        simp only [Outcome.ret.injEq, Prod.mk.injEq] at h
        obtain ⟨rfl, rfl⟩ := h
        simpa using hsome
      · exact execJob_result_or_error w run _ _ res err h

/-- C12: every call of `Run` that returns gives back a result or an error, never
neither, for every job and at every depth of nested calls (first part); hence
a job source of a config block whose run returned a nil error has a result,
and `getConfigs` goes on to decode its stdout (second part). -/
theorem Run_result_or_error (w : World) (app : App) (fuel : Nat) :
    (∀ (cmd : String) (args opts : GoMap GoValue) (res : Option Result) (err : Option Err),
      Run w app fuel cmd args opts = .ret (res, err) →
      res.isSome = true ∨ err.isSome = true) ∧
    (∀ (confCtx : EvalContext) (j : JobSpec) (confSpec : Config) (sourceIdx : Nat)
        (sourceSpec : Source) (source : SourceJob) (ctyArgs : GoMap CtyValue)
        (args : GoMap GoValue) (res : Option Result),
      sourceSpec.Type_ = "job" →
      sourceSpec.Body.decodeSourceJob confCtx = .ok source →
      DecodeExpression w source.Args confCtx (.map .dynamic) fromCtyValueMap = .ok ctyArgs →
      argsToGo ctyArgs [] = .ok args →
      Run w app fuel source.Name args args = .ret (res, none) →
      ∃ r, res = some r ∧
        loadSource w (Run w app fuel) confCtx j confSpec sourceIdx sourceSpec =
          (let format : String :=
            match source.Format with
            | some format => format
            | none => "yaml"
          if format = "yaml" then
            match w.yamlUnmarshal r.Stdout with
            | .error e => .ret (.error (.library e))
            | .ok m => .ret (.ok m)
          else .ret (.error (.formatNotImplemented format)))) := by
  have hrun : ∀ (cmd : String) (args opts : GoMap GoValue) (res : Option Result)
      (err : Option Err), Run w app fuel cmd args opts = .ret (res, err) →
      res.isSome = true ∨ err.isSome = true := by
    intro cmd args opts res err h
    cases fuel with
    | zero => simp [Run] at h
    | succ n =>
      simp only [Run] at h
      exact RunWith_result_or_error w app _ cmd args opts res err h
  refine ⟨hrun, ?_⟩
  intro confCtx j confSpec sourceIdx sourceSpec source ctyArgs args res hjob hbody hargs hgo hret
  have hres := hrun source.Name args args res none hret
  cases res with
  | none => simp at hres
  | some r =>
    refine ⟨r, rfl, ?_⟩
    have hfile : ¬ sourceSpec.Type_ = "file" := by rw [hjob]; decide
    unfold loadSource
    simp only [hfile, hjob, hbody, hargs, hgo, hret, if_false, if_true]
    cases source.Format <;> rfl

/-- The job `sourced` of the example at work in C12: its config source runs the
job `one`, whose run returns the empty result and no error, and `getConfigs`
composes the config from its (empty) stdout. -/
theorem Run_result_or_error_witness :
    Run exWorld exSourceApp 1 "one" [] [] = .ret (some {}, none) ∧
      ((some ({} : Result)).isSome = true ∨ (none : Option Err).isSome = true) ∧
      getConfigs exWorld (Run exWorld exSourceApp 1) { Variables := [] } exSourceDocument
        exSourceJob = .ret (.ok (ObjectVal [("c", .object [])])) :=
  ⟨rfl, (Run_result_or_error exWorld exSourceApp 1).1 "one" [] [] (some {}) none rfl, rfl⟩

end Variant2
